import Mathlib

/-!
# Bitcoin Echo — shallow embedding and verification of IBD-pipeline claims

This file embeds, in Lean 4, the parts of the Bitcoin Echo node that the
frozen claims are about:

* the script-number codec (`src/consensus/script.c`,
  `script_num_encode` / `script_num_decode`);
* the block-availability tracker (`src/storage/block_tracker.c`);
* the IBD chunk validator and its UTXO batch (`src/node/ibd_validator.c`);
* the pull-based download manager (`src/protocol/download_mgr.c`).

C machine integers are rendered as `Nat`/`Int`; byte arrays as `List Nat`
with elements understood as `uint8` values (0..255); caller-allocated
output buffers become return values; `echo_result_t` codes become the
`EchoResult` inductive.  Components of the repository whose sources are
not present (the `utxo_set_t` hash table, the `utxo_db_t`/`db_t` store)
are modelled from the specification and marked as such in their doc
comments.
-/

namespace BitcoinEcho

/-- `echo_result_t` status codes, as used by the embedded functions. -/
inductive EchoResult
  | ok
  | errNullParam
  | errMemory
  | errExists
  | errNotFound
  | errIo
  | errOutOfRange
  | errInvalidFormat
  deriving DecidableEq, Repr

deriving instance DecidableEq for Except

/-! ## Script numbers (`src/consensus/script.c`, lines 1109–1207)

`script_num_t` is a signed 64-bit integer; within the ranges exercised
here (encodings of at most 5 bytes) the `int64_t` arithmetic of the C
code is exact, so the embedding uses `Int` directly. -/

/-- The little-endian base-256 digits produced by the `while (absval > 0)`
loop of `script_num_encode`: least-significant byte first, no digits for
zero, last digit nonzero. -/
def natToLEBytes (n : Nat) : List Nat :=
  if h : n = 0 then []
  else n % 256 :: natToLEBytes (n / 256)
termination_by n
decreasing_by exact Nat.div_lt_self (Nat.pos_of_ne_zero h) (by norm_num)

/-- The value of a little-endian byte string: the `result |= data[i] << 8i`
accumulation of `script_num_decode`, which for byte values (< 256) is
exactly this positional sum. -/
def leBytesToNat : List Nat → Nat
  | [] => 0
  | b :: rest => b + 256 * leBytesToNat rest

/-- `script_num_encode` (script.c:1174).  Zero encodes as the empty
string; otherwise the absolute value is written little-endian, and the
sign is carried by the top bit of the last byte, adding an extra
`0x00`/`0x80` byte when the top data byte already has bit 7 set.
`buf[n-1] |= 0x80` on a byte < 0x80 is rendered as `+ 128`. -/
def script_num_encode (num : Int) : List Nat :=
  if num = 0 then []
  else
    let buf := natToLEBytes num.natAbs
    if 128 ≤ buf.getLastD 0 then
      buf ++ [if num < 0 then 128 else 0]
    else if num < 0 then
      buf.dropLast ++ [buf.getLastD 0 + 128]
    else
      buf

/-- `script_num_decode` (script.c:1118).  Empty input is zero; inputs
longer than `max_size` are rejected; under `require_minimal` a trailing
`0x00`/`0x80` whose predecessor has bit 7 clear is rejected; otherwise
the little-endian value is taken, and if bit 7 of the last byte is set
it is cleared (`result &= ~(0x80 << 8(len-1))`, i.e. subtracting
`128·256^(len-1)` for byte values) and the result negated. -/
def script_num_decode (data : List Nat) (requireMinimal : Bool)
    (maxSize : Nat) : Except EchoResult Int :=
  if data.length = 0 then .ok 0
  else if maxSize < data.length then .error .errOutOfRange
  else if requireMinimal = true ∧ 1 < data.length ∧
      (data.getLastD 0 = 0 ∨ data.getLastD 0 = 128) ∧
      data.getD (data.length - 2) 0 < 128 then
    .error .errInvalidFormat
  else
    let v : Int := (leBytesToNat data : Int)
    if 128 ≤ data.getLastD 0 then
      .ok (-(v - 128 * (256 : Int) ^ (data.length - 1)))
    else
      .ok v

/-! ## Block availability tracker (`src/storage/block_tracker.c`)

The availability bitmap is rendered as the list of heights whose bit is
set (`bitSet`/`bitClear` below write the bit); `map_capacity` is kept
because `block_tracker_has_block` reads heights beyond it as unavailable
and `block_tracker_mark_validated` only clears bits below it. -/

def BLOCK_TRACKER_INITIAL_CAPACITY : Nat := 1024 * 1024

def UINT32_MAX : Nat := 4294967295

structure BlockTracker where
  validated_tip : Nat
  highest_stored : Nat
  /-- The set of heights whose availability bit is 1. -/
  availability_map : List Nat
  map_capacity : Nat
  deriving DecidableEq, Repr

/-- Set a bit: idempotent, as for the C bitmap. -/
def bitSet (map : List Nat) (h : Nat) : List Nat :=
  if h ∈ map then map else h :: map

/-- Clear a bit. -/
def bitClear (map : List Nat) (h : Nat) : List Nat :=
  map.filter (fun x => x != h)

/-- The `while (new_capacity / 8 < needed_bytes) new_capacity *= 2` loop
of `ensure_capacity` (block_tracker.c:28).  The `cap = 0` guard is
unreachable from `block_tracker_create`, whose initial capacity is 2^20;
it is only there to make the loop total. -/
def growCapacity (neededBytes : Nat) (cap : Nat) : Nat :=
  if cap = 0 then cap
  else if h : cap / 8 < neededBytes then growCapacity neededBytes (cap * 2)
  else cap
termination_by neededBytes * 8 + 8 - cap
decreasing_by omega

/-- `ensure_capacity` (block_tracker.c:28): grow the bitmap, doubling,
until it can hold `height`. -/
def ensure_capacity (t : BlockTracker) (height : Nat) : BlockTracker :=
  let neededBytes := height / 8 + 1
  if neededBytes ≤ t.map_capacity / 8 then t
  else { t with map_capacity := growCapacity neededBytes t.map_capacity }

/-- `block_tracker_create` (block_tracker.c:71): both tips start at
`validated_tip`, the bitmap is zeroed at the initial capacity. -/
def block_tracker_create (validated_tip : Nat) : BlockTracker :=
  { validated_tip := validated_tip
    highest_stored := validated_tip
    availability_map := []
    map_capacity := BLOCK_TRACKER_INITIAL_CAPACITY }

/-- `block_tracker_reset` (block_tracker.c:105). -/
def block_tracker_reset (t : BlockTracker) (validated_tip : Nat) :
    BlockTracker :=
  { t with validated_tip := validated_tip
           highest_stored := validated_tip
           availability_map := [] }

/-- `block_tracker_mark_available` (block_tracker.c:125): ignored at or
below the validated tip; otherwise grows capacity, sets the bit, and
raises `highest_stored` if needed. -/
def block_tracker_mark_available (t : BlockTracker) (height : Nat) :
    BlockTracker :=
  if height ≤ t.validated_tip then t
  else
    let t := ensure_capacity t height
    let t := { t with availability_map := bitSet t.availability_map height }
    if t.highest_stored < height then { t with highest_stored := height }
    else t

/-- `block_tracker_has_block` (block_tracker.c:155). -/
def block_tracker_has_block (t : BlockTracker) (height : Nat) : Bool :=
  if height ≤ t.validated_tip then true
  else if t.map_capacity ≤ height then false
  else t.availability_map.contains height

/-- `block_tracker_mark_validated` (block_tracker.c:175): no-op unless
the tip advances; clears the bits in `(old_tip, new_tip]` below capacity
and sets the new tip.  `highest_stored` is not touched. -/
def block_tracker_mark_validated (t : BlockTracker) (new_validated_tip : Nat) :
    BlockTracker :=
  if new_validated_tip ≤ t.validated_tip then t
  else
    { t with
      availability_map := t.availability_map.filter fun h =>
        !(decide (t.validated_tip + 1 ≤ h) && decide (h ≤ new_validated_tip)
          && decide (h < t.map_capacity))
      validated_tip := new_validated_tip }

structure BlockRange where
  start_height : Nat
  end_height : Nat
  count : Nat
  deriving DecidableEq, Repr

/-- The `while (end < highest_stored && has_block(end+1)) end++` walk of
`block_tracker_find_consecutive_range`; `fuel` bounds the iteration count
(any value ≥ `highest_stored - e` lets the walk run to its C fixpoint). -/
def walkRangeEnd (t : BlockTracker) : Nat → Nat → Nat
  | e, 0 => e
  | e, fuel + 1 =>
    if e < t.highest_stored ∧ block_tracker_has_block t (e + 1) then
      walkRangeEnd t (e + 1) fuel
    else e

/-- `block_tracker_find_consecutive_range` (block_tracker.c:211). -/
def block_tracker_find_consecutive_range (t : BlockTracker) :
    Option BlockRange :=
  let start := t.validated_tip + 1
  if t.highest_stored < start then none
  else if block_tracker_has_block t start = false then none
  else
    let e := walkRangeEnd t start (t.highest_stored - start + 1)
    some { start_height := start, end_height := e, count := e - start + 1 }

/-- The `for (h = start; h <= highest_stored; h++)` scan of
`block_tracker_find_blocking_block`, with explicit fuel. -/
def scanBlocking (t : BlockTracker) : Nat → Nat → Option Nat
  | _, 0 => none
  | h, fuel + 1 =>
    if h ≤ t.highest_stored then
      if block_tracker_has_block t h = false then some h
      else scanBlocking t (h + 1) fuel
    else none

/-- `block_tracker_find_blocking_block` (block_tracker.c:244). -/
def block_tracker_find_blocking_block (t : BlockTracker) : Option Nat :=
  let start := t.validated_tip + 1
  if t.highest_stored < start then some start
  else
    match scanBlocking t start (t.highest_stored + 1 - start + 1) with
    | some h => some h
    | none =>
      if t.highest_stored < UINT32_MAX then some (t.highest_stored + 1)
      else none

/-! ## UTXO model and the IBD chunk validator (`src/node/ibd_validator.c`) -/

/-- `outpoint_t`: 32-byte txid plus output index.  Equality is `memcmp`
over the struct. -/
structure Outpoint where
  txid : List Nat
  vout : Nat
  deriving DecidableEq, Repr

/-- `utxo_entry_t`: the fields created by `utxo_entry_create` as used in
`validate_tx_utxos`. -/
structure UtxoEntry where
  outpoint : Outpoint
  value : Int
  script_pubkey : List Nat
  height : Nat
  is_coinbase : Bool
  deriving DecidableEq, Repr

/-- Modelled from the spec: the repository's `utxo_set_t` hash table
(`utxo.c` is not among the sources; §4.3 of the specification gives the
map contract — `lookup`, `insert` returning `Exists` on a duplicate
outpoint, `remove`).  Modelled as a list of entries keyed by outpoint,
kept in insertion order so that `utxo_set_foreach` visits entries in a
definite order. -/
def utxo_set_lookup (s : List UtxoEntry) (o : Outpoint) : Option UtxoEntry :=
  s.find? (fun e => e.outpoint == o)

/-- Modelled from the spec: `utxo_set_insert`; duplicate keys are
rejected with `Exists`. -/
def utxo_set_insert (s : List UtxoEntry) (e : UtxoEntry) :
    EchoResult × List UtxoEntry :=
  if (utxo_set_lookup s e.outpoint).isSome then (.errExists, s)
  else (.ok, s ++ [e])

/-- Modelled from the spec: `utxo_set_remove`. -/
def utxo_set_remove (s : List UtxoEntry) (o : Outpoint) : List UtxoEntry :=
  s.filter (fun e => !(e.outpoint == o))

/-- `ibd_utxo_batch_t` (ibd_validator.h:89). -/
structure IbdUtxoBatch where
  created_utxos : List UtxoEntry
  spent_outpoints : List Outpoint
  created_then_spent_count : Nat
  chunk_start_height : Nat
  chunk_end_height : Nat
  total_txs_processed : Nat
  total_inputs_processed : Nat
  total_outputs_processed : Nat
  deriving DecidableEq, Repr

/-- `ibd_utxo_batch_create` (ibd_validator.c:31): empty sets, zeroed
counters. -/
def ibd_utxo_batch_create (start_height end_height : Nat) : IbdUtxoBatch :=
  { created_utxos := []
    spent_outpoints := []
    created_then_spent_count := 0
    chunk_start_height := start_height
    chunk_end_height := end_height
    total_txs_processed := 0
    total_inputs_processed := 0
    total_outputs_processed := 0 }

/-- `ibd_utxo_batch_add_created` (ibd_validator.c:77): insert into the
created set; `total_outputs_processed` counts only successful inserts. -/
def ibd_utxo_batch_add_created (b : IbdUtxoBatch) (entry : UtxoEntry) :
    EchoResult × IbdUtxoBatch :=
  let r := (utxo_set_insert b.created_utxos entry).1
  let s := (utxo_set_insert b.created_utxos entry).2
  if r = .ok then
    (r, { b with created_utxos := s
                 total_outputs_processed := b.total_outputs_processed + 1 })
  else (r, { b with created_utxos := s })

/-- `ibd_utxo_batch_add_spent` (ibd_validator.c:91): if the outpoint is
in the created set it is removed there (created-then-spent cancellation)
and the cancelled counter bumped; otherwise it is appended to the spent
list.  The array-growth failure path is environmental and not
modelled. -/
def ibd_utxo_batch_add_spent (b : IbdUtxoBatch) (o : Outpoint) :
    EchoResult × IbdUtxoBatch :=
  let b := { b with total_inputs_processed := b.total_inputs_processed + 1 }
  match utxo_set_lookup b.created_utxos o with
  | some _ =>
    (.ok, { b with created_utxos := utxo_set_remove b.created_utxos o
                   created_then_spent_count := b.created_then_spent_count + 1 })
  | none =>
    (.ok, { b with spent_outpoints := b.spent_outpoints ++ [o] })

/-- `ibd_utxo_batch_lookup` (ibd_validator.c:129). -/
def ibd_utxo_batch_lookup (b : IbdUtxoBatch) (o : Outpoint) :
    Option UtxoEntry :=
  utxo_set_lookup b.created_utxos o

/-- `ibd_utxo_batch_get_stats` (ibd_validator.c:138):
(created, spent, cancelled). -/
def ibd_utxo_batch_get_stats (b : IbdUtxoBatch) : Nat × Nat × Nat :=
  (b.created_utxos.length, b.spent_outpoints.length,
   b.created_then_spent_count)

/-- Modelled from the spec: the `utxo_db_t` store over its `db_t`
transaction layer (`utxo_db.c`/`db.c` are not among the sources).  §4.3:
`insert` returns `Exists` on a duplicate outpoint, `delete` returns
`NotFound` if absent, `begin`/`commit`/`rollback` are transactional with
`rollback` restoring the pre-`begin` state.  §7: the store can also fail
with `Io`; `io_faults` injects such failures per outpoint.  The store
metadata persists `validated_tip` (§6.2). -/
structure UtxoDb where
  entries : List UtxoEntry
  validated_tip_meta : Nat
  io_faults : List Outpoint
  deriving DecidableEq, Repr

/-- Modelled from the spec: `utxo_db_lookup`. -/
def utxo_db_lookup (db : UtxoDb) (o : Outpoint) : Option UtxoEntry :=
  db.entries.find? (fun e => e.outpoint == o)

/-- Modelled from the spec: `utxo_db_delete`; `NotFound` when absent,
`Io` when the fault model says so. -/
def utxo_db_delete (db : UtxoDb) (o : Outpoint) : EchoResult × UtxoDb :=
  if o ∈ db.io_faults then (.errIo, db)
  else if (utxo_db_lookup db o).isSome then
    (.ok, { db with entries := db.entries.filter (fun e => !(e.outpoint == o)) })
  else (.errNotFound, db)

/-- Modelled from the spec: `utxo_db_insert`; `Exists` on a duplicate
outpoint, `Io` when the fault model says so. -/
def utxo_db_insert (db : UtxoDb) (e : UtxoEntry) : EchoResult × UtxoDb :=
  if e.outpoint ∈ db.io_faults then (.errIo, db)
  else if (utxo_db_lookup db e.outpoint).isSome then (.errExists, db)
  else (.ok, { db with entries := db.entries ++ [e] })

/-- `ibd_valid_result_t` (ibd_validator.h:121). -/
inductive IbdValidResult
  | ok
  | errLoad
  | errPow
  | errMerkle
  | errStructure
  | errUtxoMissing
  | errUtxoDouble
  | errValue
  | errScript
  | errCoinbase
  | errMemory
  | errInternal
  deriving DecidableEq, Repr

def CONSENSUS_COINBASE_MATURITY : Nat := 100

/-- `tx_input_t` as read by `validate_tx_utxos` (only the prevout is
consulted there). -/
structure TxInput where
  prevout : Outpoint
  deriving DecidableEq, Repr

/-- `tx_output_t` as read by `validate_tx_utxos`. -/
structure TxOutput where
  value : Int
  script_pubkey : List Nat
  deriving DecidableEq, Repr

structure Tx where
  inputs : List TxInput
  outputs : List TxOutput
  deriving DecidableEq, Repr

/-- The validator state that `validate_tx_utxos` and the transaction
loop of `ibd_validator_validate_next` read and write: the batch plus the
two read-only UTXO views. -/
structure IbdValidator where
  batch : IbdUtxoBatch
  utxo_db : UtxoDb
  chainstate_utxo : List UtxoEntry
  deriving DecidableEq, Repr

/-- `lookup_utxo_for_spend` (ibd_validator.c:230): batch first, then the
UTXO database, then the in-memory chainstate set. -/
def lookup_utxo_for_spend (v : IbdValidator) (o : Outpoint) :
    Option UtxoEntry :=
  match ibd_utxo_batch_lookup v.batch o with
  | some e => some e
  | none =>
    match utxo_db_lookup v.utxo_db o with
    | some e => some e
    | none => utxo_set_lookup v.chainstate_utxo o

/-- The input loop of `validate_tx_utxos` (ibd_validator.c:278–322):
look each prevout up (missing → `UtxoMissing`), enforce coinbase
maturity (immature → `UtxoMissing`), accumulate the input sum, and mark
the outpoint spent in the batch. -/
def processInputs (height : Nat) :
    IbdValidator → Int → List TxInput →
    Except IbdValidResult (Int × IbdValidator)
  | v, acc, [] => .ok (acc, v)
  | v, acc, inp :: rest =>
    match lookup_utxo_for_spend v inp.prevout with
    | none => .error .errUtxoMissing
    | some utxo =>
      if utxo.is_coinbase = true ∧
          height < utxo.height + CONSENSUS_COINBASE_MATURITY then
        .error .errUtxoMissing
      else
        processInputs height
          { v with batch := (ibd_utxo_batch_add_spent v.batch inp.prevout).2 }
          (acc + utxo.value) rest

/-- Is this output skipped as unspendable?  `script_pubkey_len > 0 &&
script_pubkey[0] == 0x6a` (ibd_validator.c:330). -/
def isOpReturnOutput (o : TxOutput) : Bool :=
  decide (0 < o.script_pubkey.length) && (o.script_pubkey.headD 0 == 0x6a)

/-- The output loop of `validate_tx_utxos` (ibd_validator.c:326–358):
skip OP_RETURN outputs, accumulate the output sum, create the UTXO entry
at `(txid, i)` and add it to the batch (an `Exists` result is
tolerated).  The allocation-failure paths are environmental and not
modelled. -/
def processOutputs (txid : List Nat) (height : Nat) (is_coinbase : Bool) :
    IbdValidator → Int → Nat → List TxOutput → Int × IbdValidator
  | v, acc, _, [] => (acc, v)
  | v, acc, i, out :: rest =>
    if isOpReturnOutput out then
      processOutputs txid height is_coinbase v acc (i + 1) rest
    else
      let entry : UtxoEntry :=
        { outpoint := { txid := txid, vout := i }
          value := out.value
          script_pubkey := out.script_pubkey
          height := height
          is_coinbase := is_coinbase }
      processOutputs txid height is_coinbase
        { v with batch := (ibd_utxo_batch_add_created v.batch entry).2 }
        (acc + out.value) (i + 1) rest

/-- `validate_tx_utxos` (ibd_validator.c:270): inputs (skipped for the
coinbase) then outputs; returns the result code, input sum, output sum
and the updated validator. -/
def validate_tx_utxos (v : IbdValidator) (tx : Tx) (txid : List Nat)
    (height : Nat) (is_coinbase : Bool) :
    IbdValidResult × Int × Int × IbdValidator :=
  if is_coinbase then
    (.ok, 0, (processOutputs txid height true v 0 0 tx.outputs).1,
     (processOutputs txid height true v 0 0 tx.outputs).2)
  else
    match processInputs height v 0 tx.inputs with
    | .error e => (e, 0, 0, v)
    | .ok p =>
      (.ok, p.1, (processOutputs txid height false p.2 0 0 tx.outputs).1,
       (processOutputs txid height false p.2 0 0 tx.outputs).2)

/-- One iteration of the transaction loop of
`ibd_validator_validate_next` (ibd_validator.c:444–471): run
`validate_tx_utxos`; for non-coinbase transactions fail with `Value`
when the output sum exceeds the input sum, otherwise add the difference
to the running fees; count the transaction. -/
def processBlockTx (v : IbdValidator) (total_fees : Int) (tx : Tx)
    (txid : List Nat) (height : Nat) (is_coinbase : Bool) :
    Except (IbdValidResult × IbdValidator) (IbdValidator × Int) :=
  match validate_tx_utxos v tx txid height is_coinbase with
  | (.ok, inSum, outSum, v') =>
    if is_coinbase = false ∧ inSum < outSum then .error (.errValue, v')
    else
      let fees := if is_coinbase then total_fees
                  else total_fees + (inSum - outSum)
      .ok ({ v' with batch :=
              { v'.batch with
                total_txs_processed := v'.batch.total_txs_processed + 1 } },
           fees)
  | (e, _, _, v') => .error (e, v')

/-- The whole transaction loop of `ibd_validator_validate_next`: the
transaction at index 0 is the coinbase.  Returns the validator and the
accumulated fees, or the first error. -/
def processBlockTxs (height : Nat) :
    IbdValidator → Int → Nat → List (Tx × List Nat) →
    Except (IbdValidResult × IbdValidator) (IbdValidator × Int)
  | v, fees, _, [] => .ok (v, fees)
  | v, fees, i, (tx, txid) :: rest =>
    match processBlockTx v fees tx txid height (i == 0) with
    | .error e => .error e
    | .ok (v', fees') => processBlockTxs height v' fees' (i + 1) rest

/-- The `delete spent` loop of `ibd_validator_flush`
(ibd_validator.c:613–622): any result other than `OK`/`NotFound` stops
the loop (the caller then rolls back). -/
def flushDeleteSpent : UtxoDb → List Outpoint → Except EchoResult UtxoDb
  | db, [] => .ok db
  | db, o :: rest =>
    if (utxo_db_delete db o).1 ≠ .ok ∧
        (utxo_db_delete db o).1 ≠ .errNotFound then
      .error (utxo_db_delete db o).1
    else flushDeleteSpent (utxo_db_delete db o).2 rest

/-- The `utxo_set_foreach` insert pass of `ibd_validator_flush` with
`flush_insert_callback` (ibd_validator.c:563–574, 624–639): any result
other than `OK`/`Exists` stops the iteration (the caller then rolls
back). -/
def flushInsertCreated : UtxoDb → List UtxoEntry → Except EchoResult UtxoDb
  | db, [] => .ok db
  | db, e :: rest =>
    if (utxo_db_insert db e).1 ≠ .ok ∧
        (utxo_db_insert db e).1 ≠ .errExists then
      .error (utxo_db_insert db e).1
    else flushInsertCreated (utxo_db_insert db e).2 rest

/-- `ibd_validator_flush` (ibd_validator.c:576), on the path where a
UTXO database is attached: `db_begin`, delete every spent outpoint,
insert every created entry, `db_commit`; on an intermediate failure
`db_rollback` restores the pre-`begin` store.  (The C function performs
no other writes inside the transaction.) -/
def ibd_validator_flush (batch : IbdUtxoBatch) (db : UtxoDb) :
    EchoResult × UtxoDb :=
  match flushDeleteSpent db batch.spent_outpoints with
  | .error r => (r, db)
  | .ok db1 =>
    match flushInsertCreated db1 batch.created_utxos with
    | .error r => (r, db)
    | .ok db2 => (.ok, db2)

/-! ## Download manager (`src/protocol/download_mgr.c`)

The header `download_mgr.h` is not among the sources; the shapes of
`work_batch_t` and `peer_perf_t` follow §3.2 of the specification
(`WorkBatch`, `PeerPerf`) and the fields the `.c` file uses.  Peers are
identified by a numeric id standing for the C `peer_t *`; the fixed-size
arrays become lists.  `bytes_per_second` is a `float` in C; it is
modelled as `ℚ` with the same formula — none of the claims below depend
on float rounding. -/

def DOWNLOAD_PERF_WINDOW_MS : Nat := 10000

/-- `work_batch_t`: hashes/heights of the blocks, the `received` bitset,
the count of blocks still missing, and the assignment timestamp. -/
structure WorkBatch where
  hashes : List (List Nat)
  heights : List Nat
  received : List Bool
  remaining : Nat
  assigned_time : Nat
  deriving DecidableEq, Repr, Inhabited

/-- `peer_perf_t`. -/
structure PeerPerf where
  peer : Nat
  batch : Option WorkBatch
  bytes_this_window : Nat
  bytes_per_second : ℚ
  window_start_time : Nat
  last_delivery_time : Nat
  first_work_time : Nat
  has_reported : Bool
  deriving DecidableEq, Repr, Inhabited

/-- The download-manager state consulted by `request_work` and
`block_received`: the batch queue, the peer table, and the height
bitmap (as the set of tracked heights). -/
structure DownloadMgr where
  queue : List WorkBatch
  peers : List PeerPerf
  height_bitmap : List Nat
  deriving DecidableEq, Repr

/-- `bitmap_clear` (download_mgr.c:214). -/
def dmBitmapClear (bm : List Nat) (h : Nat) : List Nat :=
  bm.filter (fun x => x != h)

/-- `update_peer_window` (download_mgr.c:342): once a full window has
elapsed, compute the window's rate, latch `has_reported` when positive,
and reset the window. -/
def update_peer_window (perf : PeerPerf) (now : Nat) : PeerPerf :=
  let elapsed := now - perf.window_start_time
  if DOWNLOAD_PERF_WINDOW_MS ≤ elapsed then
    let rate : ℚ := (perf.bytes_this_window : ℚ) / ((elapsed : ℚ) / 1000)
    { perf with
      bytes_per_second := rate
      has_reported := perf.has_reported || decide (0 < rate)
      bytes_this_window := 0
      window_start_time := now }
  else perf

/-- `find_peer_perf` (download_mgr.c:295), as the index of the peer's
slot. -/
def findPeerIdx (peers : List PeerPerf) (pid : Nat) : Option Nat :=
  peers.findIdx? (fun p => p.peer == pid)

/-- Receiving block `i` of a batch (download_mgr.c:638–644): set the
`received` bit and decrement `remaining` if positive. -/
def markReceivedInBatch (b : WorkBatch) (i : Nat) : WorkBatch :=
  { b with
    received := b.received.set i true
    remaining := if 0 < b.remaining then b.remaining - 1 else b.remaining }

/-- The DRAIN-mode search of `download_mgr_block_received`
(download_mgr.c:655–687): scan every peer slot in order, skipping the
delivering peer's (index `skip`), and return the first
`(peer index, slot index)` whose assigned batch contains the hash.
`j` is the index of the head of the remaining list. -/
def findHashLoc (skip : Nat) (hash : List Nat) :
    List PeerPerf → Nat → Option (Nat × Nat)
  | [], _ => none
  | p :: rest, j =>
    if j = skip then findHashLoc skip hash rest (j + 1)
    else
      match p.batch with
      | some b =>
        match b.hashes.findIdx? (fun x => x == hash) with
        | some i => some (j, i)
        | none => findHashLoc skip hash rest (j + 1)
      | none => findHashLoc skip hash rest (j + 1)

/-- The second half of `download_mgr_block_received`: attribute a block
that is not in the delivering peer's batch to whichever batch holds it
(DRAIN redundancy), or accept it as a late delivery. -/
def receiveFromOthers (mgr : DownloadMgr) (pi : Nat) (hash : List Nat) :
    Bool × DownloadMgr :=
  match findHashLoc pi hash mgr.peers 0 with
  | none => (true, mgr)
  | some (j, i) =>
    let other := mgr.peers.getD j default
    match other.batch with
    | none => (true, mgr)
    | some b =>
      if b.received.getD i false then (false, mgr)
      else
        (true,
         { mgr with
           peers := mgr.peers.set j { other with batch := some (markReceivedInBatch b i) }
           height_bitmap := dmBitmapClear mgr.height_bitmap (b.heights.getD i 0) })

/-- `download_mgr_block_received` (download_mgr.c:607): update the
delivering peer's performance counters, then look for the hash first in
that peer's own batch and then in every other peer's batch; a first
delivery marks the bit, decrements `remaining` and returns true; an
already-received hash returns false; a hash in no batch (late or
unrequested) returns true; a delivery from an unknown peer returns true
untracked. -/
def download_mgr_block_received (mgr : DownloadMgr) (pid : Nat)
    (hash : List Nat) (block_size : Nat) (now : Nat) : Bool × DownloadMgr :=
  match findPeerIdx mgr.peers pid with
  | none => (true, mgr)
  | some pi =>
    let perf := mgr.peers.getD pi default
    let perf := { perf with
                  bytes_this_window := perf.bytes_this_window + block_size
                  last_delivery_time := now }
    let perf := update_peer_window perf now
    let mgr := { mgr with peers := mgr.peers.set pi perf }
    match perf.batch with
    | some b =>
      match b.hashes.findIdx? (fun x => x == hash) with
      | some i =>
        if b.received.getD i false then (false, mgr)
        else
          (true,
           { mgr with
             peers := mgr.peers.set pi { perf with batch := some (markReceivedInBatch b i) }
             height_bitmap := dmBitmapClear mgr.height_bitmap (b.heights.getD i 0) })
      | none => receiveFromOthers mgr pi hash
    | none => receiveFromOthers mgr pi hash

/-- The tail of `download_mgr_peer_request_work` (download_mgr.c:565–604):
with an empty queue the peer starves; otherwise the front batch is
assigned, timestamps are set, and a getdata for all its hashes is
published (returned here as the third component). -/
def requestAssign (mgr : DownloadMgr) (pi : Nat) (now : Nat) :
    Bool × DownloadMgr × Option (List (List Nat)) :=
  match mgr.queue with
  | [] => (false, mgr, none)
  | node :: rest =>
    let b := { node with assigned_time := now }
    let perf := mgr.peers.getD pi default
    let perf := { perf with
                  batch := some b
                  last_delivery_time := now
                  first_work_time := if perf.first_work_time = 0 then now
                                     else perf.first_work_time }
    (true, { mgr with queue := rest, peers := mgr.peers.set pi perf },
     some b.hashes)

/-- `download_mgr_peer_request_work` (download_mgr.c:536): unknown peers
and peers with unfinished work get nothing; a completed batch is freed
(its heights cleared from the height bitmap, the slot's batch set to
none) before the queue is consulted. -/
def download_mgr_peer_request_work (mgr : DownloadMgr) (pid : Nat)
    (now : Nat) : Bool × DownloadMgr × Option (List (List Nat)) :=
  match findPeerIdx mgr.peers pid with
  | none => (false, mgr, none)
  | some pi =>
    let perf := mgr.peers.getD pi default
    match perf.batch with
    | some b =>
      if 0 < b.remaining then (false, mgr, none)
      else
        let mgr1 :=
          { mgr with
            peers := mgr.peers.set pi { perf with batch := none }
            height_bitmap := b.heights.foldl dmBitmapClear mgr.height_bitmap }
        requestAssign mgr1 pi now
    | none => requestAssign mgr pi now

/-! ## Operation sequences and spec-side views

Definitions used to state the claims: operation alphabets for the batch
and the tracker (so "after any sequence of calls" can be quantified),
views of the states the claims talk about, and the concrete fixtures the
scenario claims and witnesses evaluate. -/

/-- The calls claim C4 quantifies over. -/
inductive BatchOp
  | addCreated (e : UtxoEntry)
  | addSpent (o : Outpoint)
  deriving DecidableEq, Repr

def applyBatchOp (b : IbdUtxoBatch) : BatchOp → IbdUtxoBatch
  | .addCreated e => (ibd_utxo_batch_add_created b e).2
  | .addSpent o => (ibd_utxo_batch_add_spent b o).2

def applyBatchOps (b : IbdUtxoBatch) (ops : List BatchOp) : IbdUtxoBatch :=
  ops.foldl applyBatchOp b

/-- The invariant of claim C4: no outpoint is simultaneously a key of
the created set and an element of the spent list. -/
def batchDisjoint (b : IbdUtxoBatch) : Prop :=
  ∀ o : Outpoint, (ibd_utxo_batch_lookup b o).isSome → o ∉ b.spent_outpoints

/-- The side condition of the amended C4: every `add_created` in the
sequence is called with an outpoint that is not already on the spent
list at that moment (fresh outpoints, as unique txids guarantee). -/
def freshCreates : IbdUtxoBatch → List BatchOp → Bool
  | _, [] => true
  | b, op :: rest =>
    (match op with
     | .addCreated e => decide (e.outpoint ∉ b.spent_outpoints)
     | .addSpent _ => true) && freshCreates (applyBatchOp b op) rest

/-- The calls claim C5 quantifies over (after `block_tracker_create`). -/
inductive TrackerOp
  | markAvailable (h : Nat)
  | markValidated (h : Nat)
  | reset (h : Nat)
  deriving DecidableEq, Repr

def applyTrackerOp (t : BlockTracker) : TrackerOp → BlockTracker
  | .markAvailable h => block_tracker_mark_available t h
  | .markValidated h => block_tracker_mark_validated t h
  | .reset h => block_tracker_reset t h

def applyTrackerOps (t : BlockTracker) (ops : List TrackerOp) : BlockTracker :=
  ops.foldl applyTrackerOp t

/-- The side condition of the amended C5: every `mark_validated` in the
sequence is called with a tip at or below the tracker's current
`highest_stored` (as the pipeline does, validating only ranges that
`find_consecutive_range` reported). -/
def goodTrackerOps : BlockTracker → List TrackerOp → Bool
  | _, [] => true
  | t, op :: rest =>
    (match op with
     | .markValidated h => decide (h ≤ t.highest_stored)
     | _ => true) && goodTrackerOps (applyTrackerOp t op) rest

/-- The quantity claim C3 calls "the sum of the values of all of its
outputs", restricted as the code restricts it: OP_RETURN outputs
(script starting with byte 0x6a) are skipped. -/
def nonOpReturnOutputSum (outs : List TxOutput) : Int :=
  ((outs.filter fun o => !(isOpReturnOutput o)).map (fun o => o.value)).sum

/-- The sum of the values of all outputs, with no OP_RETURN exclusion —
the quantity claim C3 literally names. -/
def totalOutputSum (outs : List TxOutput) : Int :=
  (outs.map (fun o => o.value)).sum

/-- The per-peer batch view of a download manager, for frame
statements. -/
def peerBatches (mgr : DownloadMgr) : List (Option WorkBatch) :=
  mgr.peers.map (fun p => p.batch)

/-- The delivering peer's own-batch search of `block_received`: the slot
index of `hash` in that peer's assigned batch, if any. -/
def ownBatchSlot (mgr : DownloadMgr) (pi : Nat) (hash : List Nat) :
    Option Nat :=
  match (mgr.peers.getD pi default).batch with
  | some b => b.hashes.findIdx? (fun x => x == hash)
  | none => none

/-- Claim C7's side condition: the peer is unknown, idle with no batch,
or still has unfinished work — i.e. it does not hold a completed
batch. -/
def peerHasNoCompletedBatch (mgr : DownloadMgr) (pid : Nat) : Bool :=
  match findPeerIdx mgr.peers pid with
  | none => true
  | some pi =>
    match (mgr.peers.getD pi default).batch with
    | none => true
    | some b => decide (0 < b.remaining)

/-! ### Concrete fixtures for the scenario claims and witnesses -/

/-- Outpoint `X` of scenario S2 (claim C1). -/
def xOutpoint : Outpoint := { txid := List.replicate 32 171, vout := 0 }

/-- Created entry for `X`: value 50 000 at height 100. -/
def xEntry : UtxoEntry :=
  { outpoint := xOutpoint, value := 50000, script_pubkey := [118]
    height := 100, is_coinbase := false }

/-- The call pair claim C1 is about: `add_created` of `e`, then
`add_spent` of the same outpoint, on an arbitrary batch. -/
def createdThenSpent (b : IbdUtxoBatch) (e : UtxoEntry) : IbdUtxoBatch :=
  (ibd_utxo_batch_add_spent
    (ibd_utxo_batch_add_created b e).2 e.outpoint).2

/-- A store for C1's flush: one unrelated entry, no faults. -/
def c1Db : UtxoDb :=
  { entries := [{ outpoint := { txid := List.replicate 32 7, vout := 1 }
                  value := 600, script_pubkey := [81], height := 42
                  is_coinbase := false }]
    validated_tip_meta := 99
    io_faults := [] }

/-- A store holding an entry at `X` (and no faults), for the C1
counterexample: flushing a batch whose spent list holds `X` deletes this
row. -/
def c1DbX : UtxoDb :=
  { entries := [xEntry], validated_tip_meta := 7, io_faults := [] }

/-- Scenario S4 (claim C8): tracker with `validated_tip = 1000` and
heights 1001..1050 and 1052..1100 marked available. -/
def c8Tracker : BlockTracker :=
  (((List.range 50).map (fun k => 1001 + k)) ++
    ((List.range 49).map (fun k => 1052 + k))).foldl
    block_tracker_mark_available (block_tracker_create 1000)

/-- Outpoint `P` whose UTXO the C3 fixtures spend. -/
def pOutpoint : Outpoint := { txid := List.replicate 32 1, vout := 0 }

/-- The pre-existing UTXO at `P`: value 10. -/
def pEntry : UtxoEntry :=
  { outpoint := pOutpoint, value := 10, script_pubkey := [81]
    height := 1, is_coinbase := false }

def c3Db : UtxoDb :=
  { entries := [pEntry], validated_tip_meta := 0, io_faults := [] }

def c3Validator : IbdValidator :=
  { batch := ibd_utxo_batch_create 100 100, utxo_db := c3Db
    chainstate_utxo := [] }

/-- A coinbase with a single zero-value output. -/
def c3CoinbaseTx : Tx :=
  { inputs := [{ prevout := { txid := List.replicate 32 0, vout := 4294967295 } }]
    outputs := [{ value := 0, script_pubkey := [81] }] }

/-- The C3 counterexample transaction: spends `P` (input sum 10) and
carries its whole 100-satoshi output on an OP_RETURN script. -/
def c3SpendTx : Tx :=
  { inputs := [{ prevout := pOutpoint }]
    outputs := [{ value := 100, script_pubkey := [106] }] }

/-- A C3 witness transaction: spends `P` (input sum 10), one plain
3-satoshi output. -/
def c3OkTx : Tx :=
  { inputs := [{ prevout := pOutpoint }]
    outputs := [{ value := 3, script_pubkey := [81] }] }

def c3OkTxid : List Nat := List.replicate 32 4

/-- The result tuple of `validate_tx_utxos` on the C3 witness
transaction. -/
def c3OkRun : IbdValidResult × Int × Int × IbdValidator :=
  validate_tx_utxos c3Validator c3OkTx c3OkTxid 100 false

/-- A batch whose spent outpoint is absent from the store and whose
created entry is already present there (already-applied deltas). -/
def flushBatchEx : IbdUtxoBatch :=
  { ibd_utxo_batch_create 100 199 with
    spent_outpoints := [pOutpoint]
    created_utxos := [xEntry] }

/-- A store where `flushBatchEx`'s delete misses and its insert
collides: `pOutpoint` absent, `xEntry` present. -/
def flushDbEx : UtxoDb :=
  { entries := [xEntry], validated_tip_meta := 42, io_faults := [] }

/-- The same store with an injected I/O fault on the spent outpoint. -/
def flushDbFaultEx : UtxoDb :=
  { entries := [xEntry], validated_tip_meta := 42, io_faults := [pOutpoint] }

/-- A work batch holding two blocks, none received yet. -/
def wbFresh : WorkBatch :=
  { hashes := [[1], [2]], heights := [10, 11]
    received := [false, false], remaining := 2, assigned_time := 5 }

/-- The same work batch with block 0 already received. -/
def wbHalf : WorkBatch :=
  { hashes := [[1], [2]], heights := [10, 11]
    received := [true, false], remaining := 1, assigned_time := 5 }

/-- A completed work batch (everything received). -/
def wbDone : WorkBatch :=
  { hashes := [[1], [2]], heights := [10, 11]
    received := [true, true], remaining := 0, assigned_time := 5 }

/-- C6 counterexample manager: one registered idle peer, nothing
requested anywhere. -/
def mgrNoBatch : DownloadMgr :=
  { queue := []
    peers := [{ peer := 1, batch := none, bytes_this_window := 0
                bytes_per_second := 0, window_start_time := 0
                last_delivery_time := 0, first_work_time := 0
                has_reported := false }]
    height_bitmap := [] }

/-- C6 witness manager: peer 1 holds `wbHalf`. -/
def mgrHalf : DownloadMgr :=
  { queue := []
    peers := [{ peer := 1, batch := some wbHalf, bytes_this_window := 0
                bytes_per_second := 0, window_start_time := 0
                last_delivery_time := 0, first_work_time := 0
                has_reported := false }]
    height_bitmap := [10, 11] }

/-- C7 counterexample manager: empty queue, peer 1 holds a completed
batch. -/
def mgrDone : DownloadMgr :=
  { queue := []
    peers := [{ peer := 1, batch := some wbDone, bytes_this_window := 0
                bytes_per_second := 0, window_start_time := 0
                last_delivery_time := 0, first_work_time := 0
                has_reported := false }]
    height_bitmap := [10, 11] }

/-- C7 witness manager: empty queue, peer 1 still has unfinished
work. -/
def mgrBusy : DownloadMgr :=
  { queue := []
    peers := [{ peer := 1, batch := some wbFresh, bytes_this_window := 0
                bytes_per_second := 0, window_start_time := 0
                last_delivery_time := 0, first_work_time := 0
                has_reported := false }]
    height_bitmap := [10, 11] }

/-! ## Claims -/

/-- C1 counterexample: on a batch whose spent list already holds `X`
(reachable by spending a pre-existing `X`), the `add_created X` /
`add_spent X` pair leaves `X` on the spent list, so a subsequent flush
does write a row for `X` — it deletes the store's entry at `X` — against
the claim's "a subsequent flush writes no rows for X" for *any*
UtxoBatch. -/
theorem c1_counterexample :
    xOutpoint ∈ (createdThenSpent
      (ibd_utxo_batch_add_spent (ibd_utxo_batch_create 100 199)
        xOutpoint).2 xEntry).spent_outpoints ∧
    utxo_db_lookup
        (ibd_validator_flush
          (createdThenSpent
            (ibd_utxo_batch_add_spent (ibd_utxo_batch_create 100 199)
              xOutpoint).2 xEntry) c1DbX).2 xOutpoint ≠
      utxo_db_lookup c1DbX xOutpoint := by decide

set_option maxRecDepth 100000 in
/-- C8: `find_consecutive_range` returns none whenever the first block
after the validated tip is missing; and on the scenario-S4 tracker
(validated_tip 1000, heights 1001..1050 and 1052..1100 available) it
returns {start 1001, end 1050, count 50} while `find_blocking_block`
returns 1051. -/
theorem c8_consecutive_range_and_blocking :
    (∀ t : BlockTracker,
        block_tracker_has_block t (t.validated_tip + 1) = false →
        block_tracker_find_consecutive_range t = none) ∧
    block_tracker_find_consecutive_range c8Tracker =
      some { start_height := 1001, end_height := 1050, count := 50 } ∧
    block_tracker_find_blocking_block c8Tracker = some 1051 := by
  refine ⟨fun t h => ?_, by decide, by decide⟩
  simp [block_tracker_find_consecutive_range, h]

/-- C8 witness: a tracker with nothing stored above its tip has no
consecutive range, by the first conjunct of the theorem at
`block_tracker_create 500`. -/
theorem c8_witness :
    block_tracker_find_consecutive_range (block_tracker_create 500) = none :=
  c8_consecutive_range_and_blocking.1 (block_tracker_create 500) (by decide)

/-- C5 counterexample: the sequence `create 0; mark_validated 5` leaves
`validated_tip = 5 > highest_stored = 0` — `mark_validated` never
raises `highest_stored`, so the invariant fails for arbitrary call
sequences. -/
theorem c5_counterexample :
    ¬ ((applyTrackerOps (block_tracker_create 0)
          [.markValidated 5]).validated_tip ≤
       (applyTrackerOps (block_tracker_create 0)
          [.markValidated 5]).highest_stored) := by decide

/-- C4 counterexample: `add_spent X` on a batch that never created `X`
puts `X` on the spent list; a later `add_created X` then inserts `X`
into the created set without consulting the spent list, so `X` is in
both. -/
theorem c4_counterexample :
    (ibd_utxo_batch_lookup
        (applyBatchOps (ibd_utxo_batch_create 100 199)
          [.addSpent xOutpoint, .addCreated xEntry]) xOutpoint).isSome = true ∧
    xOutpoint ∈ (applyBatchOps (ibd_utxo_batch_create 100 199)
        [.addSpent xOutpoint, .addCreated xEntry]).spent_outpoints := by decide

/-- C6 counterexample: a block from a registered peer whose hash is in
no batch at all (an unrequested delivery) makes `block_received` return
true, not false as the claim states. -/
theorem c6_counterexample :
    (download_mgr_block_received mgrNoBatch 1 [170] 500 0).1 = true := by
  decide

/-- C7 counterexample: with the queue empty, `request_work` from a peer
holding a completed batch returns false but does modify that peer's
state — the completed batch is freed (and its heights cleared from the
height bitmap). -/
theorem c7_counterexample :
    (download_mgr_peer_request_work mgrDone 1 0).1 = false ∧
    (download_mgr_peer_request_work mgrDone 1 0).2.1 ≠ mgrDone := by decide

/-- C3 counterexample: a transaction whose only output carries 100
satoshis on an OP_RETURN script, spending a 10-satoshi UTXO, passes the
value check (OP_RETURN outputs are excluded from the output sum), even
though the sum of the values of all of its outputs exceeds the input
sum. -/
theorem c3_counterexample :
    (processBlockTxs 100 c3Validator 0 0
        [(c3CoinbaseTx, List.replicate 32 2),
         (c3SpendTx, List.replicate 32 3)]).isOk = true ∧
    totalOutputSum c3SpendTx.outputs = 100 ∧
    (lookup_utxo_for_spend c3Validator pOutpoint).map (fun e => e.value) =
      some 10 := by decide

theorem utxo_db_delete_meta (db : UtxoDb) (o : Outpoint) :
    ((utxo_db_delete db o).2).validated_tip_meta = db.validated_tip_meta := by
  unfold utxo_db_delete
  split
  · rfl
  · split <;> rfl

theorem utxo_db_delete_faults (db : UtxoDb) (o : Outpoint) :
    ((utxo_db_delete db o).2).io_faults = db.io_faults := by
  unfold utxo_db_delete
  split
  · rfl
  · split <;> rfl

theorem utxo_db_insert_meta (db : UtxoDb) (e : UtxoEntry) :
    ((utxo_db_insert db e).2).validated_tip_meta = db.validated_tip_meta := by
  unfold utxo_db_insert
  split
  · rfl
  · split <;> rfl

theorem utxo_db_insert_faults (db : UtxoDb) (e : UtxoEntry) :
    ((utxo_db_insert db e).2).io_faults = db.io_faults := by
  unfold utxo_db_insert
  split
  · rfl
  · split <;> rfl

theorem flushDeleteSpent_meta :
    ∀ (l : List Outpoint) (db db' : UtxoDb),
      flushDeleteSpent db l = .ok db' →
      db'.validated_tip_meta = db.validated_tip_meta := by
  intro l
  induction l with
  | nil => intro db db' h; cases h; rfl
  | cons o rest ih =>
    intro db db' h
    unfold flushDeleteSpent at h
    split at h
    · exact Except.noConfusion h
    · exact (ih _ _ h).trans (utxo_db_delete_meta db o)

theorem flushInsertCreated_meta :
    ∀ (l : List UtxoEntry) (db db' : UtxoDb),
      flushInsertCreated db l = .ok db' →
      db'.validated_tip_meta = db.validated_tip_meta := by
  intro l
  induction l with
  | nil => intro db db' h; cases h; rfl
  | cons e rest ih =>
    intro db db' h
    unfold flushInsertCreated at h
    split at h
    · exact Except.noConfusion h
    · exact (ih _ _ h).trans (utxo_db_insert_meta db e)

theorem flushDeleteSpent_ok_of_no_faults :
    ∀ (l : List Outpoint) (db : UtxoDb), db.io_faults = [] →
      ∃ db', flushDeleteSpent db l = .ok db' ∧ db'.io_faults = [] := by
  intro l
  induction l with
  | nil => exact fun db h => ⟨db, rfl, h⟩
  | cons o rest ih =>
    intro db h
    have hf : ((utxo_db_delete db o).2).io_faults = [] :=
      (utxo_db_delete_faults db o).trans h
    have hr : (utxo_db_delete db o).1 = .ok ∨
        (utxo_db_delete db o).1 = .errNotFound := by
      unfold utxo_db_delete
      split
      · simp_all
      · split
        · exact Or.inl rfl
        · exact Or.inr rfl
    obtain ⟨db', hok, hf'⟩ := ih _ hf
    refine ⟨db', ?_, hf'⟩
    unfold flushDeleteSpent
    rcases hr with hr | hr <;> simp [hr, hok]

theorem flushInsertCreated_ok_of_no_faults :
    ∀ (l : List UtxoEntry) (db : UtxoDb), db.io_faults = [] →
      ∃ db', flushInsertCreated db l = .ok db' ∧ db'.io_faults = [] := by
  intro l
  induction l with
  | nil => exact fun db h => ⟨db, rfl, h⟩
  | cons e rest ih =>
    intro db h
    have hf : ((utxo_db_insert db e).2).io_faults = [] :=
      (utxo_db_insert_faults db e).trans h
    have hr : (utxo_db_insert db e).1 = .ok ∨
        (utxo_db_insert db e).1 = .errExists := by
      unfold utxo_db_insert
      split
      · simp_all
      · split
        · exact Or.inr rfl
        · exact Or.inl rfl
    obtain ⟨db', hok, hf'⟩ := ih _ hf
    refine ⟨db', ?_, hf'⟩
    unfold flushInsertCreated
    rcases hr with hr | hr <;> simp [hr, hok]

/-- C2: `ibd_validator_flush` never touches the store's `validated_tip`
metadata — neither on the commit path nor on a rollback.  The claim
(and the function's own header comment, ibd_validator.h:312–317) says
the transaction includes an update of the validated-height metadata;
the implementation performs only the deletes and the inserts. -/
theorem c2_flush_never_updates_metadata (batch : IbdUtxoBatch)
    (db : UtxoDb) :
    ((ibd_validator_flush batch db).2).validated_tip_meta =
      db.validated_tip_meta := by
  unfold ibd_validator_flush
  cases hd : flushDeleteSpent db batch.spent_outpoints with
  | error r => rfl
  | ok db1 =>
    dsimp only
    cases hi : flushInsertCreated db1 batch.created_utxos with
    | error r => rfl
    | ok db2 =>
      dsimp only
      exact (flushInsertCreated_meta _ _ _ hi).trans
        (flushDeleteSpent_meta _ _ _ hd)

/-- C10: flush tolerance.  With no injected store faults the flush
always commits with `OK` — in particular when spent outpoints are
already absent (`NotFound` deletes) and created entries already present
(`Exists` inserts); and whenever flush fails it rolls back, returning
the pre-`begin` store. -/
theorem c10_flush_tolerates_applied_deltas (batch : IbdUtxoBatch)
    (db : UtxoDb) :
    (db.io_faults = [] → (ibd_validator_flush batch db).1 = .ok) ∧
    ((ibd_validator_flush batch db).1 ≠ .ok →
      (ibd_validator_flush batch db).2 = db) := by
  constructor
  · intro h
    obtain ⟨db1, hd, hf1⟩ :=
      flushDeleteSpent_ok_of_no_faults batch.spent_outpoints db h
    obtain ⟨db2, hi, _⟩ :=
      flushInsertCreated_ok_of_no_faults batch.created_utxos db1 hf1
    unfold ibd_validator_flush
    rw [hd]
    dsimp only
    rw [hi]
  · intro h
    unfold ibd_validator_flush at h ⊢
    cases hd : flushDeleteSpent db batch.spent_outpoints with
    | error r => rfl
    | ok db1 =>
      dsimp only
      cases hi : flushInsertCreated db1 batch.created_utxos with
      | error r => rfl
      | ok db2 => rw [hd] at h; simp [hi] at h

/-- C10 witness: on `flushDbEx` (spent outpoint absent, created entry
already present, no faults) the flush commits with `OK`; on
`flushDbFaultEx` (an injected I/O fault) it fails and returns the store
unchanged. -/
theorem c10_witness :
    (ibd_validator_flush flushBatchEx flushDbEx).1 = .ok ∧
    (ibd_validator_flush flushBatchEx flushDbFaultEx).2 = flushDbFaultEx :=
  ⟨(c10_flush_tolerates_applied_deltas flushBatchEx flushDbEx).1 rfl,
   (c10_flush_tolerates_applied_deltas flushBatchEx flushDbFaultEx).2
     (by decide)⟩

theorem utxo_set_lookup_remove_isSome {s : List UtxoEntry} {o o' : Outpoint}
    (h : (utxo_set_lookup (utxo_set_remove s o) o').isSome) :
    (utxo_set_lookup s o').isSome := by
  rw [utxo_set_lookup, List.find?_isSome] at h ⊢
  obtain ⟨x, hx, hpx⟩ := h
  exact ⟨x, (List.mem_filter.mp hx).1, hpx⟩

theorem utxo_set_lookup_append_isSome {s : List UtxoEntry} {e : UtxoEntry}
    {o' : Outpoint}
    (h : (utxo_set_lookup (s ++ [e]) o').isSome) :
    (utxo_set_lookup s o').isSome ∨ o' = e.outpoint := by
  rw [utxo_set_lookup, List.find?_isSome] at h
  obtain ⟨x, hx, hpx⟩ := h
  rcases List.mem_append.mp hx with hx | hx
  · left
    rw [utxo_set_lookup, List.find?_isSome]
    exact ⟨x, hx, hpx⟩
  · right
    have hx' : x = e := by simpa using hx
    subst hx'
    have : x.outpoint = o' := by simpa using hpx
    exact this.symm

theorem batchDisjoint_applyBatchOp {b : IbdUtxoBatch} {op : BatchOp}
    (hd : batchDisjoint b)
    (hop : ∀ e, op = .addCreated e → e.outpoint ∉ b.spent_outpoints) :
    batchDisjoint (applyBatchOp b op) := by
  cases op with
  | addCreated e =>
    have he := hop e rfl
    have happly : applyBatchOp b (.addCreated e)
        = (ibd_utxo_batch_add_created b e).2 := rfl
    have hspent : ((ibd_utxo_batch_add_created b e).2).spent_outpoints
        = b.spent_outpoints := by
      unfold ibd_utxo_batch_add_created
      dsimp only
      split <;> rfl
    have hcreated : ((ibd_utxo_batch_add_created b e).2).created_utxos
        = (utxo_set_insert b.created_utxos e).2 := by
      unfold ibd_utxo_batch_add_created
      dsimp only
      split <;> rfl
    intro o hsome
    rw [happly, hspent]
    rw [ibd_utxo_batch_lookup, happly, hcreated] at hsome
    by_cases hex : (utxo_set_lookup b.created_utxos e.outpoint).isSome
    · rw [utxo_set_insert] at hsome
      simp only [hex, if_true] at hsome
      exact hd o hsome
    · rw [utxo_set_insert] at hsome
      simp only [hex, if_false, Bool.false_eq_true] at hsome
      rcases utxo_set_lookup_append_isSome hsome with h | h
      · exact hd o h
      · rw [h]; exact he
  | addSpent o0 =>
    have hb1 : (applyBatchOp b (.addSpent o0)) =
        (ibd_utxo_batch_add_spent b o0).2 := rfl
    intro o hsome
    rw [hb1] at hsome ⊢
    unfold ibd_utxo_batch_add_spent at hsome ⊢
    cases hl : utxo_set_lookup b.created_utxos o0 with
    | some e0 =>
      simp only [hl] at hsome ⊢
      rw [ibd_utxo_batch_lookup] at hsome
      simp only at hsome
      exact hd o (utxo_set_lookup_remove_isSome hsome)
    | none =>
      simp only [hl] at hsome ⊢
      rw [ibd_utxo_batch_lookup] at hsome
      simp only at hsome ⊢
      rw [List.mem_append]
      rintro (hmem | hmem)
      · exact hd o (by simpa [ibd_utxo_batch_lookup] using hsome) hmem
      · have : o = o0 := by simpa using hmem
        subst this
        rw [hl] at hsome
        simp [ibd_utxo_batch_lookup] at hsome

/-- C4 amended: the disjointness invariant holds after any sequence of
`add_created`/`add_spent` calls in which every `add_created` is given an
outpoint that is not already on the spent list at that moment (as is the
case in the validator, where created outpoints come from fresh txids).
Without that freshness condition the invariant fails (see the
counterexample): `add_created` never consults the spent list. -/
theorem c4_amended : ∀ (ops : List BatchOp) (b : IbdUtxoBatch),
    batchDisjoint b → freshCreates b ops = true →
    batchDisjoint (applyBatchOps b ops) := by
  intro ops
  induction ops with
  | nil => exact fun b hd _ => hd
  | cons op rest ih =>
    intro b hd hf
    unfold freshCreates at hf
    rw [Bool.and_eq_true] at hf
    have hstep : batchDisjoint (applyBatchOp b op) := by
      apply batchDisjoint_applyBatchOp hd
      intro e he
      subst he
      simpa using hf.1
    simpa [applyBatchOps] using ih (applyBatchOp b op) hstep hf.2

theorem batchDisjoint_create (s e : Nat) :
    batchDisjoint (ibd_utxo_batch_create s e) := by
  intro o h
  simp [ibd_utxo_batch_lookup, utxo_set_lookup, ibd_utxo_batch_create] at h

/-- C4 witness: the amended invariant at a concrete fresh sequence —
create an entry, spend an unrelated pre-existing outpoint. -/
theorem c4_witness :
    batchDisjoint (applyBatchOps (ibd_utxo_batch_create 100 199)
      [.addCreated xEntry, .addSpent pOutpoint]) :=
  c4_amended [.addCreated xEntry, .addSpent pOutpoint]
    (ibd_utxo_batch_create 100 199) (batchDisjoint_create 100 199)
    (by decide)

theorem ensure_capacity_validated_tip (t : BlockTracker) (h : Nat) :
    (ensure_capacity t h).validated_tip = t.validated_tip := by
  unfold ensure_capacity
  dsimp only
  split <;> rfl

theorem ensure_capacity_highest_stored (t : BlockTracker) (h : Nat) :
    (ensure_capacity t h).highest_stored = t.highest_stored := by
  unfold ensure_capacity
  dsimp only
  split <;> rfl

theorem mark_available_validated_tip (t : BlockTracker) (h : Nat) :
    (block_tracker_mark_available t h).validated_tip = t.validated_tip := by
  unfold block_tracker_mark_available
  split
  · rfl
  · dsimp only
    split <;> simp [ensure_capacity_validated_tip]

theorem mark_available_highest_ge (t : BlockTracker) (h : Nat) :
    t.highest_stored ≤ (block_tracker_mark_available t h).highest_stored := by
  unfold block_tracker_mark_available
  split
  · exact Nat.le_refl _
  · dsimp only
    split
    · rename_i hlt
      rw [ensure_capacity_highest_stored] at hlt
      exact Nat.le_of_lt hlt
    · simp [ensure_capacity_highest_stored]

theorem tracker_inv_applyTrackerOp (t : BlockTracker) (op : TrackerOp)
    (hinv : t.validated_tip ≤ t.highest_stored)
    (hop : ∀ h, op = .markValidated h → h ≤ t.highest_stored) :
    (applyTrackerOp t op).validated_tip ≤
      (applyTrackerOp t op).highest_stored := by
  cases op with
  | markAvailable h =>
    have h1 : applyTrackerOp t (.markAvailable h)
        = block_tracker_mark_available t h := rfl
    rw [h1, mark_available_validated_tip]
    exact hinv.trans (mark_available_highest_ge t h)
  | markValidated h =>
    have hle := hop h rfl
    have h1 : applyTrackerOp t (.markValidated h)
        = block_tracker_mark_validated t h := rfl
    rw [h1]
    unfold block_tracker_mark_validated
    split
    · exact hinv
    · exact hle
  | reset h =>
    exact Nat.le_refl _

/-- C5 amended: `validated_tip ≤ highest_stored` holds after any
sequence of tracker operations in which every `mark_validated` is called
with a tip at or below the current `highest_stored` (as the pipeline
does: validated ranges come from `find_consecutive_range`, which never
reaches past `highest_stored`).  Unrestricted `mark_validated` can push
`validated_tip` above `highest_stored` (see the counterexample), because
it never raises `highest_stored`. -/
theorem c5_amended : ∀ (ops : List TrackerOp) (t : BlockTracker),
    t.validated_tip ≤ t.highest_stored → goodTrackerOps t ops = true →
    (applyTrackerOps t ops).validated_tip ≤
      (applyTrackerOps t ops).highest_stored := by
  intro ops
  induction ops with
  | nil => exact fun t hinv _ => hinv
  | cons op rest ih =>
    intro t hinv hg
    unfold goodTrackerOps at hg
    rw [Bool.and_eq_true] at hg
    have hstep := tracker_inv_applyTrackerOp t op hinv (by
      intro h he
      subst he
      simpa using hg.1)
    simpa [applyTrackerOps] using ih (applyTrackerOp t op) hstep hg.2

/-- C5 witness: the amended invariant on a concrete sequence — mark
height 3 available, then validate up to 2 (≤ highest_stored = 3). -/
theorem c5_witness :
    (applyTrackerOps (block_tracker_create 0)
        [.markAvailable 3, .markValidated 2]).validated_tip ≤
      (applyTrackerOps (block_tracker_create 0)
        [.markAvailable 3, .markValidated 2]).highest_stored :=
  c5_amended [.markAvailable 3, .markValidated 2] (block_tracker_create 0)
    (Nat.le_refl 0) (by decide)

theorem processInputs_error (height : Nat) :
    ∀ (l : List TxInput) (v : IbdValidator) (acc : Int) (e : IbdValidResult),
      processInputs height v acc l = .error e → e = .errUtxoMissing := by
  intro l
  induction l with
  | nil => intro v acc e h; exact Except.noConfusion h
  | cons inp rest ih =>
    intro v acc e h
    unfold processInputs at h
    cases hl : lookup_utxo_for_spend v inp.prevout with
    | none =>
      rw [hl] at h
      exact (Except.error.inj h).symm
    | some u =>
      rw [hl] at h
      dsimp only at h
      split at h
      · exact (Except.error.inj h).symm
      · exact ih _ _ _ h

theorem processOutputs_fst (txid : List Nat) (height : Nat)
    (is_coinbase : Bool) :
    ∀ (outs : List TxOutput) (v : IbdValidator) (acc : Int) (i : Nat),
      (processOutputs txid height is_coinbase v acc i outs).1 =
        acc + nonOpReturnOutputSum outs := by
  intro outs
  induction outs with
  | nil =>
    intro v acc i
    simp [processOutputs, nonOpReturnOutputSum]
  | cons out rest ih =>
    intro v acc i
    unfold processOutputs
    by_cases hskip : isOpReturnOutput out
    · simp only [hskip, if_true, ih]
      simp [nonOpReturnOutputSum, hskip]
    · simp only [hskip, Bool.false_eq_true, if_false, ih]
      simp [nonOpReturnOutputSum, List.filter_cons, hskip]
      omega

/-- C3 amended: value conservation as the code enforces it.  For every
non-coinbase transaction whose UTXO processing succeeds, the output sum
the code compares is the sum of the values of its non-OP_RETURN outputs
(outputs whose script starts with byte 0x6a are excluded, together with
their values); if that sum exceeds the referenced input sum the
transaction loop fails with the `Value` error, and otherwise the
difference `input_sum − output_sum` is added to the block's running
fees.  (The claim's 'sum of the values of all of its outputs' is refuted
by the counterexample: an OP_RETURN output's value does not count.) -/
theorem c3_amended (v : IbdValidator) (fees : Int) (tx : Tx)
    (txid : List Nat) (height : Nat) (inSum outSum : Int)
    (v' : IbdValidator)
    (hv : validate_tx_utxos v tx txid height false =
      (.ok, inSum, outSum, v')) :
    outSum = nonOpReturnOutputSum tx.outputs ∧
    (inSum < outSum →
      processBlockTx v fees tx txid height false = .error (.errValue, v')) ∧
    (outSum ≤ inSum →
      processBlockTx v fees tx txid height false =
        .ok ({ v' with batch := { v'.batch with
                total_txs_processed := v'.batch.total_txs_processed + 1 } },
             fees + (inSum - outSum))) := by
  have hout : outSum = nonOpReturnOutputSum tx.outputs := by
    unfold validate_tx_utxos at hv
    rw [if_neg (by simp)] at hv
    cases hp : processInputs height v 0 tx.inputs with
    | error e =>
      rw [hp] at hv
      have he := processInputs_error height tx.inputs v 0 e hp
      have hok : e = .ok := by
        have := congrArg (fun q => q.1) hv
        simpa using this
      rw [he] at hok
      exact absurd hok (by decide)
    | ok p =>
      rw [hp] at hv
      have := congrArg (fun q => q.2.2.1) hv
      simp only at this
      rw [← this, processOutputs_fst]
      simp
  refine ⟨hout, ?_, ?_⟩
  · intro hlt
    unfold processBlockTx
    rw [hv]
    dsimp only
    rw [if_pos ⟨rfl, hlt⟩]
  · intro hle
    unfold processBlockTx
    rw [hv]
    dsimp only
    rw [if_neg (by simp [not_lt.mpr hle])]
    simp

/-- C3 witness: the amended property at the concrete witness
transaction (input sum 10, one plain 3-satoshi output): the loop
accepts it and accumulates fee 10 − 3. -/
theorem c3_witness :
    processBlockTx c3Validator 0 c3OkTx c3OkTxid 100 false =
      .ok ({ c3OkRun.2.2.2 with batch := { c3OkRun.2.2.2.batch with
              total_txs_processed :=
                c3OkRun.2.2.2.batch.total_txs_processed + 1 } },
           0 + (c3OkRun.2.1 - c3OkRun.2.2.1)) :=
  (c3_amended c3Validator 0 c3OkTx c3OkTxid 100 c3OkRun.2.1 c3OkRun.2.2.1
      c3OkRun.2.2.2 (by decide)).2.2 (by decide)

/-- C7 amended: with the batch queue empty, `request_work` always
returns false; the requesting peer's record (and the whole manager) is
left unmodified whenever the peer does not hold a completed batch —
i.e. when it is unknown, has no batch, or still has unfinished work.  A
peer that does hold a completed batch (`remaining = 0`) has exactly that
batch freed before the empty queue is discovered: its slot's batch
becomes none and the batch's heights are cleared from the height
bitmap; nothing else changes.  (The claim's unconditional "leaves that
peer's state unmodified" is refuted by the counterexample.) -/
theorem c7_amended (mgr : DownloadMgr) (pid now : Nat)
    (hq : mgr.queue = []) :
    (download_mgr_peer_request_work mgr pid now).1 = false ∧
    (peerHasNoCompletedBatch mgr pid = true →
      (download_mgr_peer_request_work mgr pid now).2.1 = mgr) ∧
    (∀ pi b, findPeerIdx mgr.peers pid = some pi →
      (mgr.peers.getD pi default).batch = some b → b.remaining = 0 →
      (download_mgr_peer_request_work mgr pid now).2.1 =
        { mgr with
          peers := mgr.peers.set pi
            { mgr.peers.getD pi default with batch := none }
          height_bitmap :=
            b.heights.foldl dmBitmapClear mgr.height_bitmap }) := by
  unfold download_mgr_peer_request_work
  cases hf : findPeerIdx mgr.peers pid with
  | none =>
    refine ⟨rfl, fun _ => rfl, fun pi b hpi _ _ => ?_⟩
    exact Option.noConfusion hpi
  | some pi =>
    dsimp only
    cases hb : (mgr.peers.getD pi default).batch with
    | none =>
      unfold requestAssign
      rw [hq]
      refine ⟨rfl, fun _ => rfl, fun pi' b' hpi' hb' _ => ?_⟩
      have : pi' = pi := (Option.some.inj hpi').symm
      subst this
      rw [hb] at hb'
      exact Option.noConfusion hb'
    | some b =>
      dsimp only
      by_cases hr : 0 < b.remaining
      · rw [if_pos hr]
        refine ⟨rfl, fun _ => rfl, fun pi' b' hpi' hb' hz => ?_⟩
        have : pi' = pi := (Option.some.inj hpi').symm
        subst this
        rw [hb] at hb'
        have : b = b' := Option.some.inj hb'
        subst this
        omega
      · rw [if_neg hr]
        unfold requestAssign
        dsimp only
        rw [hq]
        refine ⟨rfl, fun hno => ?_, fun pi' b' hpi' hb' _ => ?_⟩
        · simp only [peerHasNoCompletedBatch, hf, hb,
            decide_eq_true_eq] at hno
          exact absurd hno hr
        · have : pi' = pi := (Option.some.inj hpi').symm
          subst this
          rw [hb] at hb'
          have : b = b' := Option.some.inj hb'
          subst this
          rfl

/-- C7 witness: with an empty queue, a peer still holding unfinished
work gets `false` and the manager is untouched. -/
theorem c7_witness :
    (download_mgr_peer_request_work mgrBusy 1 0).1 = false ∧
    (download_mgr_peer_request_work mgrBusy 1 0).2.1 = mgrBusy :=
  ⟨(c7_amended mgrBusy 1 0 rfl).1,
   (c7_amended mgrBusy 1 0 rfl).2.1 (by decide)⟩

theorem update_peer_window_batch (p : PeerPerf) (now : Nat) :
    (update_peer_window p now).batch = p.batch := by
  unfold update_peer_window
  dsimp only
  split <;> rfl

theorem list_getD_set_ne {α : Type} [Inhabited α] :
    ∀ (l : List α) (i j : Nat) (x d : α), i ≠ j →
      (l.set i x).getD j d = l.getD j d := by
  intro l
  induction l with
  | nil => intro i j x d _; rfl
  | cons a t ih =>
    intro i j x d hij
    cases i with
    | zero =>
      cases j with
      | zero => exact absurd rfl hij
      | succ m => simp [List.set]
    | succ n =>
      cases j with
      | zero => simp [List.set]
      | succ m => simpa [List.set] using ih n m x d (by omega)

theorem map_batch_set_same :
    ∀ (l : List PeerPerf) (i : Nat) (x : PeerPerf),
      x.batch = (l.getD i default).batch →
      (l.set i x).map (fun p => p.batch) = l.map (fun p => p.batch) := by
  intro l
  induction l with
  | nil => intro i x _; rfl
  | cons a t ih =>
    intro i x hx
    cases i with
    | zero =>
      simp only [List.getD_cons_zero] at hx
      simp [List.set, hx]
    | succ n =>
      simp only [List.getD_cons_succ] at hx
      simp [List.set, ih n x hx]

theorem findHashLoc_set (hash : List Nat) :
    ∀ (l : List PeerPerf) (k j skip : Nat) (x : PeerPerf),
      j + k = skip →
      findHashLoc skip hash (l.set k x) j = findHashLoc skip hash l j := by
  intro l
  induction l with
  | nil => intro k j skip x _; rfl
  | cons p rest ih =>
    intro k j skip x h
    cases k with
    | zero =>
      have hj : j = skip := by omega
      simp only [List.set]
      unfold findHashLoc
      rw [if_pos hj, if_pos hj]
    | succ k' =>
      have : j + 1 + k' = skip := by omega
      simp only [List.set]
      unfold findHashLoc
      by_cases hj : j = skip
      · rw [if_pos hj, if_pos hj]
        exact ih k' (j + 1) skip x this
      · rw [if_neg hj, if_neg hj]
        cases p.batch with
        | none => exact ih k' (j + 1) skip x this
        | some b =>
          dsimp only
          cases b.hashes.findIdx? (fun y => y == hash) with
          | none => exact ih k' (j + 1) skip x this
          | some i => rfl

theorem findHashLoc_ne_skip (hash : List Nat) :
    ∀ (l : List PeerPerf) (j skip k i : Nat),
      findHashLoc skip hash l j = some (k, i) → k ≠ skip := by
  intro l
  induction l with
  | nil => intro j skip k i h; exact Option.noConfusion h
  | cons p rest ih =>
    intro j skip k i h
    unfold findHashLoc at h
    by_cases hj : j = skip
    · rw [if_pos hj] at h
      exact ih (j + 1) skip k i h
    · rw [if_neg hj] at h
      cases hpb : p.batch with
      | none => rw [hpb] at h; exact ih (j + 1) skip k i h
      | some b =>
        rw [hpb] at h
        dsimp only at h
        cases hidx : b.hashes.findIdx? (fun y => y == hash) with
        | none => rw [hidx] at h; exact ih (j + 1) skip k i h
        | some i0 =>
          rw [hidx] at h
          have : j = k := congrArg (fun q => (Option.getD q (0, 0)).1) h
          omega

theorem block_received_own (mgr : DownloadMgr) (pid : Nat)
    (hash : List Nat) (sz now pi : Nat) (b : WorkBatch) (i : Nat)
    (hp : findPeerIdx mgr.peers pid = some pi)
    (hb : (mgr.peers.getD pi default).batch = some b)
    (hidx : b.hashes.findIdx? (fun x => x == hash) = some i) :
    (b.received.getD i false = true →
      (download_mgr_block_received mgr pid hash sz now).1 = false ∧
      peerBatches (download_mgr_block_received mgr pid hash sz now).2 =
        peerBatches mgr) ∧
    (b.received.getD i false = false →
      (download_mgr_block_received mgr pid hash sz now).1 = true ∧
      peerBatches (download_mgr_block_received mgr pid hash sz now).2 =
        (peerBatches mgr).set pi (some (markReceivedInBatch b i))) := by
  unfold download_mgr_block_received
  rw [hp]
  dsimp only
  rw [update_peer_window_batch]
  dsimp only
  rw [hb]
  dsimp only
  rw [hidx]
  dsimp only
  constructor
  · intro hrec
    rw [if_pos hrec]
    refine ⟨rfl, ?_⟩
    exact map_batch_set_same mgr.peers pi _
      ((update_peer_window_batch _ _).trans hb.symm)
  · intro hrec
    rw [if_neg (by rw [hrec]; simp)]
    refine ⟨rfl, ?_⟩
    show ((mgr.peers.set pi _).set pi _).map (fun p => p.batch) = _
    rw [List.set_set, List.map_set]
    rfl

theorem receiveFromOthers_set (mgr : DownloadMgr) (pi : Nat) (x : PeerPerf)
    (hash : List Nat) (j i : Nat) (b : WorkBatch)
    (hxb : x.batch = (mgr.peers.getD pi default).batch)
    (hloc : findHashLoc pi hash mgr.peers 0 = some (j, i))
    (hb : (mgr.peers.getD j default).batch = some b) :
    (b.received.getD i false = true →
      (receiveFromOthers { mgr with peers := mgr.peers.set pi x }
          pi hash).1 = false ∧
      peerBatches (receiveFromOthers { mgr with peers := mgr.peers.set pi x }
          pi hash).2 = peerBatches mgr) ∧
    (b.received.getD i false = false →
      (receiveFromOthers { mgr with peers := mgr.peers.set pi x }
          pi hash).1 = true ∧
      peerBatches (receiveFromOthers { mgr with peers := mgr.peers.set pi x }
          pi hash).2 =
        (peerBatches mgr).set j (some (markReceivedInBatch b i))) := by
  have hj : j ≠ pi := findHashLoc_ne_skip hash mgr.peers 0 pi j i hloc
  have hloc' : findHashLoc pi hash (mgr.peers.set pi x) 0 = some (j, i) := by
    rw [findHashLoc_set hash mgr.peers pi 0 pi x (by omega)]
    exact hloc
  unfold receiveFromOthers
  dsimp only
  rw [hloc']
  dsimp only
  rw [list_getD_set_ne mgr.peers pi j x default (Ne.symm hj)]
  rw [hb]
  dsimp only
  constructor
  · intro hrec
    rw [if_pos hrec]
    exact ⟨rfl, map_batch_set_same _ _ _ hxb⟩
  · intro hrec
    rw [if_neg (by rw [hrec]; simp)]
    refine ⟨rfl, ?_⟩
    show ((mgr.peers.set pi x).set j _).map (fun p => p.batch) = _
    rw [List.map_set, map_batch_set_same _ _ _ hxb]
    rfl

theorem block_received_other (mgr : DownloadMgr) (pid : Nat)
    (hash : List Nat) (sz now pi j i : Nat) (b : WorkBatch)
    (hp : findPeerIdx mgr.peers pid = some pi)
    (hown : ownBatchSlot mgr pi hash = none)
    (hloc : findHashLoc pi hash mgr.peers 0 = some (j, i))
    (hb : (mgr.peers.getD j default).batch = some b) :
    (b.received.getD i false = true →
      (download_mgr_block_received mgr pid hash sz now).1 = false ∧
      peerBatches (download_mgr_block_received mgr pid hash sz now).2 =
        peerBatches mgr) ∧
    (b.received.getD i false = false →
      (download_mgr_block_received mgr pid hash sz now).1 = true ∧
      peerBatches (download_mgr_block_received mgr pid hash sz now).2 =
        (peerBatches mgr).set j (some (markReceivedInBatch b i))) := by
  unfold download_mgr_block_received
  rw [hp]
  dsimp only
  rw [update_peer_window_batch]
  dsimp only
  unfold ownBatchSlot at hown
  cases hpb : (mgr.peers.getD pi default).batch with
  | none =>
    dsimp only
    exact receiveFromOthers_set mgr pi _ hash j i b
      ((update_peer_window_batch _ _).trans hpb.symm) hloc hb
  | some b0 =>
    rw [hpb] at hown
    dsimp only at hown
    dsimp only
    rw [hown]
    dsimp only
    exact receiveFromOthers_set mgr pi _ hash j i b
      ((update_peer_window_batch _ _).trans hpb.symm) hloc hb

theorem block_received_absent (mgr : DownloadMgr) (pid : Nat)
    (hash : List Nat) (sz now pi : Nat)
    (hp : findPeerIdx mgr.peers pid = some pi)
    (hown : ownBatchSlot mgr pi hash = none)
    (hnone : findHashLoc pi hash mgr.peers 0 = none) :
    (download_mgr_block_received mgr pid hash sz now).1 = true ∧
    peerBatches (download_mgr_block_received mgr pid hash sz now).2 =
      peerBatches mgr := by
  have hro : ∀ x : PeerPerf, x.batch = (mgr.peers.getD pi default).batch →
      (receiveFromOthers { mgr with peers := mgr.peers.set pi x }
          pi hash).1 = true ∧
      peerBatches (receiveFromOthers { mgr with peers := mgr.peers.set pi x }
          pi hash).2 = peerBatches mgr := by
    intro x hxb
    have hloc' : findHashLoc pi hash (mgr.peers.set pi x) 0 = none := by
      rw [findHashLoc_set hash mgr.peers pi 0 pi x (by omega)]
      exact hnone
    unfold receiveFromOthers
    dsimp only
    rw [hloc']
    exact ⟨rfl, map_batch_set_same _ _ _ hxb⟩
  unfold download_mgr_block_received
  rw [hp]
  dsimp only
  rw [update_peer_window_batch]
  dsimp only
  unfold ownBatchSlot at hown
  cases hpb : (mgr.peers.getD pi default).batch with
  | none =>
    dsimp only
    exact hro _ ((update_peer_window_batch _ _).trans hpb.symm)
  | some b0 =>
    rw [hpb] at hown
    dsimp only at hown
    dsimp only
    rw [hown]
    dsimp only
    exact hro _ ((update_peer_window_batch _ _).trans hpb.symm)

/-- C6 amended: `block_received` from a registered peer marks a
first-time delivery in the owning batch's `received` bitset and
decrements that batch's `remaining` (when positive) — first looking in
the delivering peer's own batch, then searching all other peers'
batches (DRAIN-mode redundant deliveries); a duplicate delivery (hash
already received in the batch where the search finds it) decrements
nothing, changes no batch, and returns false; a delivery whose hash is
in no batch at all (late or unrequested) returns true and changes no
batch.  (The claim's 'returns false … from an unrequested set' is
refuted by the counterexample: unrequested deliveries return true.) -/
theorem c6_amended (mgr : DownloadMgr) (pid : Nat) (hash : List Nat)
    (sz now pi : Nat)
    (hp : findPeerIdx mgr.peers pid = some pi) :
    (∀ b i, (mgr.peers.getD pi default).batch = some b →
      b.hashes.findIdx? (fun x => x == hash) = some i →
      ((b.received.getD i false = true →
          (download_mgr_block_received mgr pid hash sz now).1 = false ∧
          peerBatches (download_mgr_block_received mgr pid hash sz now).2 =
            peerBatches mgr) ∧
       (b.received.getD i false = false →
          (download_mgr_block_received mgr pid hash sz now).1 = true ∧
          peerBatches (download_mgr_block_received mgr pid hash sz now).2 =
            (peerBatches mgr).set pi (some (markReceivedInBatch b i))))) ∧
    (ownBatchSlot mgr pi hash = none →
      (∀ j i b, findHashLoc pi hash mgr.peers 0 = some (j, i) →
        (mgr.peers.getD j default).batch = some b →
        ((b.received.getD i false = true →
            (download_mgr_block_received mgr pid hash sz now).1 = false ∧
            peerBatches
              (download_mgr_block_received mgr pid hash sz now).2 =
              peerBatches mgr) ∧
         (b.received.getD i false = false →
            (download_mgr_block_received mgr pid hash sz now).1 = true ∧
            peerBatches
              (download_mgr_block_received mgr pid hash sz now).2 =
              (peerBatches mgr).set j (some (markReceivedInBatch b i))))) ∧
      (findHashLoc pi hash mgr.peers 0 = none →
        (download_mgr_block_received mgr pid hash sz now).1 = true ∧
        peerBatches (download_mgr_block_received mgr pid hash sz now).2 =
          peerBatches mgr)) :=
  ⟨fun b i hb hidx =>
      block_received_own mgr pid hash sz now pi b i hp hb hidx,
   fun hown =>
    ⟨fun j i b hloc hb =>
        block_received_other mgr pid hash sz now pi j i b hp hown hloc hb,
     fun hnone =>
        block_received_absent mgr pid hash sz now pi hp hown hnone⟩⟩

/-- C6 witness: on a manager whose peer 1 holds a half-received batch,
re-delivering the already-received block returns false, and delivering
the missing block returns true and replaces the batch with its marked,
decremented form. -/
theorem c6_witness :
    ((download_mgr_block_received mgrHalf 1 [1] 5 0).1 = false ∧
      peerBatches (download_mgr_block_received mgrHalf 1 [1] 5 0).2 =
        peerBatches mgrHalf) ∧
    ((download_mgr_block_received mgrHalf 1 [2] 5 0).1 = true ∧
      peerBatches (download_mgr_block_received mgrHalf 1 [2] 5 0).2 =
        (peerBatches mgrHalf).set 0 (some (markReceivedInBatch wbHalf 1))) :=
  ⟨((c6_amended mgrHalf 1 [1] 5 0 0 (by decide)).1 wbHalf 0 (by decide)
      (by decide)).1 (by decide),
   ((c6_amended mgrHalf 1 [2] 5 0 0 (by decide)).1 wbHalf 1 (by decide)
      (by decide)).2 (by decide)⟩

theorem natToLEBytes_zero : natToLEBytes 0 = [] := by
  unfold natToLEBytes
  rfl

theorem natToLEBytes_pos {n : Nat} (h : n ≠ 0) :
    natToLEBytes n = n % 256 :: natToLEBytes (n / 256) := by
  rw [natToLEBytes]
  simp [h]

theorem natToLEBytes_eq_nil_iff {n : Nat} : natToLEBytes n = [] ↔ n = 0 := by
  constructor
  · intro h
    by_contra hn
    rw [natToLEBytes_pos hn] at h
    exact List.noConfusion h
  · intro h
    rw [h]
    exact natToLEBytes_zero

theorem leBytes_natToLEBytes (n : Nat) :
    leBytesToNat (natToLEBytes n) = n := by
  induction n using Nat.strong_induction_on with
  | _ n ih =>
    by_cases h : n = 0
    · rw [h, natToLEBytes_zero]
      rfl
    · rw [natToLEBytes_pos h]
      unfold leBytesToNat
      rw [ih (n / 256) (Nat.div_lt_self (Nat.pos_of_ne_zero h) (by norm_num))]
      omega

theorem natToLEBytes_lt (n : Nat) : ∀ d ∈ natToLEBytes n, d < 256 := by
  induction n using Nat.strong_induction_on with
  | _ n ih =>
    by_cases h : n = 0
    · rw [h, natToLEBytes_zero]
      intro d hd
      exact absurd hd (List.not_mem_nil d)
    · rw [natToLEBytes_pos h]
      intro d hd
      rcases List.mem_cons.mp hd with hd | hd
      · rw [hd]; exact Nat.mod_lt n (by norm_num)
      · exact ih (n / 256)
          (Nat.div_lt_self (Nat.pos_of_ne_zero h) (by norm_num)) d hd

theorem getLastD_of_ne_nil {α : Type} :
    ∀ (l : List α), l ≠ [] → ∀ (d d' : α), l.getLastD d = l.getLastD d' := by
  intro l
  induction l with
  | nil => intro h; exact absurd rfl h
  | cons a t ih =>
    intro _ d d'
    cases t with
    | nil => rfl
    | cons b t' => simp only [List.getLastD_cons]

theorem natToLEBytes_getLast_pos {n : Nat} (h : n ≠ 0) :
    0 < (natToLEBytes n).getLastD 0 := by
  induction n using Nat.strong_induction_on with
  | _ n ih =>
    rw [natToLEBytes_pos h]
    by_cases hq : n / 256 = 0
    · rw [hq, natToLEBytes_zero]
      have : n < 256 := by omega
      have : n % 256 = n := Nat.mod_eq_of_lt this
      simp [List.getLastD, this]
      omega
    · have hne : natToLEBytes (n / 256) ≠ [] :=
        fun hh => hq (natToLEBytes_eq_nil_iff.mp hh)
      rw [List.getLastD_cons]
      rw [getLastD_of_ne_nil _ hne (n % 256) 0]
      exact ih (n / 256)
        (Nat.div_lt_self (Nat.pos_of_ne_zero h) (by norm_num)) hq

theorem getLastD_mem {α : Type} :
    ∀ (l : List α) (d : α), l ≠ [] → l.getLastD d ∈ l := by
  intro l
  induction l with
  | nil => intro d h; exact absurd rfl h
  | cons a t ih =>
    intro d _
    cases t with
    | nil => simp [List.getLastD]
    | cons b t' =>
      rw [List.getLastD_cons]
      exact List.mem_cons_of_mem a (ih a (List.cons_ne_nil b t'))

theorem natToLEBytes_getLast_lt {n : Nat} (h : n ≠ 0) :
    (natToLEBytes n).getLastD 0 < 256 := by
  have hne : natToLEBytes n ≠ [] := fun hh => h (natToLEBytes_eq_nil_iff.mp hh)
  exact natToLEBytes_lt n _ (getLastD_mem _ 0 hne)

theorem natToLEBytes_length_le {n k : Nat} (h : n < 256 ^ k) :
    (natToLEBytes n).length ≤ k := by
  induction k generalizing n with
  | zero =>
    have : n = 0 := by simpa using h
    rw [this, natToLEBytes_zero]
    exact Nat.le_refl 0
  | succ k ih =>
    by_cases hn : n = 0
    · rw [hn, natToLEBytes_zero]
      exact Nat.zero_le _
    · rw [natToLEBytes_pos hn]
      have hdiv : n / 256 < 256 ^ k := by
        rw [Nat.pow_succ, Nat.mul_comm] at h
        exact Nat.div_lt_of_lt_mul h
      simp only [List.length_cons]
      exact Nat.succ_le_succ (ih hdiv)

theorem leBytesToNat_append_singleton :
    ∀ (l : List Nat) (b : Nat),
      leBytesToNat (l ++ [b]) = leBytesToNat l + b * 256 ^ l.length := by
  intro l
  induction l with
  | nil => intro b; simp [leBytesToNat]
  | cons a t ih =>
    intro b
    simp only [List.cons_append]
    unfold leBytesToNat
    rw [ih]
    simp only [List.length_cons, Nat.pow_succ]
    ring

theorem getLastD_append_singleton {α : Type} :
    ∀ (l : List α) (b d : α), (l ++ [b]).getLastD d = b := by
  intro l
  induction l with
  | nil => intro b d; rfl
  | cons a t ih =>
    intro b d
    rw [List.cons_append, List.getLastD_cons]
    exact ih b a

theorem dropLast_append_getLastD {α : Type} :
    ∀ (l : List α) (d : α), l ≠ [] → l.dropLast ++ [l.getLastD d] = l := by
  intro l
  induction l with
  | nil => intro d h; exact absurd rfl h
  | cons a t ih =>
    intro d _
    cases t with
    | nil => rfl
    | cons b t' =>
      rw [List.getLastD_cons]
      have hd : (a :: b :: t').dropLast = a :: (b :: t').dropLast := rfl
      rw [hd, List.cons_append, ih a (List.cons_ne_nil b t')]

theorem getD_length_sub_one {α : Type} :
    ∀ (l : List α) (d : α), l ≠ [] → l.getD (l.length - 1) d = l.getLastD d := by
  intro l
  induction l with
  | nil => intro d h; exact absurd rfl h
  | cons a t ih =>
    intro d _
    cases t with
    | nil => rfl
    | cons b t' =>
      have h1 : (a :: b :: t').length - 1 = (b :: t').length - 1 + 1 := by
        simp
      rw [h1, List.getD_cons_succ, ih d (List.cons_ne_nil b t')]
      conv_rhs => rw [List.getLastD_cons]
      exact getLastD_of_ne_nil (b :: t') (List.cons_ne_nil b t') d a

/-- Decode shape for a positive number whose top byte is below 0x80:
the bytes decode back to their little-endian value, with or without the
minimal-encoding requirement. -/
theorem decode_plain (buf : List Nat) (m : Bool)
    (hne : buf ≠ []) (hlen : buf.length ≤ 5)
    (hpos : 0 < buf.getLastD 0) (hlt : buf.getLastD 0 < 128) :
    script_num_decode buf m 5 = .ok ((leBytesToNat buf : Int)) := by
  have hl0 : buf.length ≠ 0 := fun hh => hne (List.eq_nil_of_length_eq_zero hh)
  unfold script_num_decode
  rw [if_neg hl0, if_neg (by omega)]
  rw [if_neg (by
    rintro ⟨-, -, hzero, -⟩
    rcases hzero with hzero | hzero <;> omega)]
  rw [if_neg (by omega)]

/-- Decode shape for the sign-extension encodings: `buf ++ [s]` where
`buf`'s own top byte has bit 7 set and `s` is `0x00` or `0x80`.  The
minimal check passes because the second-to-last byte has bit 7 set. -/
theorem decode_extended (buf : List Nat) (m : Bool) (s : Nat)
    (hne : buf ≠ []) (hlen : buf.length ≤ 4)
    (hhigh : 128 ≤ buf.getLastD 0)
    (hs : s = 0 ∨ s = 128) :
    script_num_decode (buf ++ [s]) m 5 =
      if 128 ≤ s then
        .ok (-((leBytesToNat buf : Int)))
      else
        .ok ((leBytesToNat buf : Int)) := by
  have hlpos : 0 < buf.length := List.length_pos.mpr hne
  have hlen' : (buf ++ [s]).length = buf.length + 1 := by simp
  have hl0 : (buf ++ [s]).length ≠ 0 := by omega
  have hlast : (buf ++ [s]).getLastD 0 = s := getLastD_append_singleton buf s 0
  have hsnd : (buf ++ [s]).getD ((buf ++ [s]).length - 2) 0
      = buf.getLastD 0 := by
    rw [hlen']
    have h2 : buf.length + 1 - 2 = buf.length - 1 := by omega
    rw [h2, List.getD_append buf [s] 0 (buf.length - 1) (by omega)]
    exact getD_length_sub_one buf 0 hne
  have hv : leBytesToNat (buf ++ [s])
      = leBytesToNat buf + s * 256 ^ buf.length :=
    leBytesToNat_append_singleton buf s
  unfold script_num_decode
  rw [if_neg hl0, if_neg (by omega)]
  rw [if_neg (by
    rintro ⟨-, -, -, hlow⟩
    rw [hsnd] at hlow
    omega)]
  rw [hlast, hlen', hv]
  rcases hs with hs | hs
  · subst hs
    rw [if_neg (by omega), if_neg (by omega)]
    simp
  · subst hs
    rw [if_pos (by omega), if_pos (by omega)]
    congr 1
    push_cast
    ring

/-- Decode shape for a negative number whose magnitude's top byte is
below 0x80: the sign bit is carried in the top byte itself. -/
theorem decode_signbit (buf : List Nat) (m : Bool)
    (hne : buf ≠ []) (hlen : buf.length ≤ 5)
    (hpos : 0 < buf.getLastD 0) (hlt : buf.getLastD 0 < 128) :
    script_num_decode (buf.dropLast ++ [buf.getLastD 0 + 128]) m 5 =
      .ok (-((leBytesToNat buf : Int))) := by
  have hlpos : 0 < buf.length := List.length_pos.mpr hne
  have hdl : buf.dropLast.length = buf.length - 1 := List.length_dropLast buf
  have hlen' : (buf.dropLast ++ [buf.getLastD 0 + 128]).length = buf.length := by
    simp [hdl]
    omega
  have hl0 : (buf.dropLast ++ [buf.getLastD 0 + 128]).length ≠ 0 := by omega
  have hlast : (buf.dropLast ++ [buf.getLastD 0 + 128]).getLastD 0
      = buf.getLastD 0 + 128 := getLastD_append_singleton _ _ 0
  have hbuf : buf.dropLast ++ [buf.getLastD 0] = buf :=
    dropLast_append_getLastD buf 0 hne
  have hvbuf : leBytesToNat buf
      = leBytesToNat buf.dropLast + buf.getLastD 0 * 256 ^ (buf.length - 1) := by
    conv_lhs => rw [← hbuf]
    rw [leBytesToNat_append_singleton, hdl]
  have hv : leBytesToNat (buf.dropLast ++ [buf.getLastD 0 + 128])
      = leBytesToNat buf.dropLast
        + (buf.getLastD 0 + 128) * 256 ^ (buf.length - 1) := by
    rw [leBytesToNat_append_singleton, hdl]
  unfold script_num_decode
  rw [if_neg hl0, if_neg (by omega)]
  rw [if_neg (by
    rintro ⟨-, -, hzero, -⟩
    rw [hlast] at hzero
    rcases hzero with hzero | hzero <;> omega)]
  rw [hlast, if_pos (by omega), hlen', hv]
  congr 1
  rw [hvbuf]
  push_cast
  ring

/-- C9: script-number round-trip.  For every `n` in the arithmetic
range `[-2^31+1, 2^31-1]`, decoding the encoding of `n` (with
`max_size = 5` and with or without the minimal-encoding requirement)
yields `n` again. -/
theorem c9_script_num_roundtrip (n : Int) (m : Bool)
    (h1 : -(2 ^ 31 - 1) ≤ n) (h2 : n ≤ 2 ^ 31 - 1) :
    script_num_decode (script_num_encode n) m 5 = .ok n := by
  by_cases h0 : n = 0
  · rw [h0]
    rfl
  · have hapos : n.natAbs ≠ 0 := by omega
    have habound : n.natAbs < 256 ^ 4 := by
      have h4 : (256 : Nat) ^ 4 = 4294967296 := by norm_num
      rw [h4]
      have h31 : (2 : Int) ^ 31 - 1 = 2147483647 := by norm_num
      rw [h31] at h1 h2
      omega
    have hbne : natToLEBytes n.natAbs ≠ [] :=
      fun hh => hapos (natToLEBytes_eq_nil_iff.mp hh)
    have hlst_pos : 0 < (natToLEBytes n.natAbs).getLastD 0 :=
      natToLEBytes_getLast_pos hapos
    have hlst_lt : (natToLEBytes n.natAbs).getLastD 0 < 256 :=
      natToLEBytes_getLast_lt hapos
    have hval : leBytesToNat (natToLEBytes n.natAbs) = n.natAbs :=
      leBytes_natToLEBytes n.natAbs
    have hlen : (natToLEBytes n.natAbs).length ≤ 4 :=
      natToLEBytes_length_le habound
    unfold script_num_encode
    rw [if_neg h0]
    dsimp only
    by_cases hsign : 128 ≤ (natToLEBytes n.natAbs).getLastD 0
    · rw [if_pos hsign]
      by_cases hneg : n < 0
      · rw [if_pos hneg]
        rw [decode_extended (natToLEBytes n.natAbs) m 128 hbne hlen hsign
          (Or.inr rfl)]
        rw [if_pos (by omega), hval]
        have : -((n.natAbs : Int)) = n := by omega
        rw [this]
      · rw [if_neg hneg]
        rw [decode_extended (natToLEBytes n.natAbs) m 0 hbne hlen hsign
          (Or.inl rfl)]
        rw [if_neg (by omega), hval]
        have : ((n.natAbs : Int)) = n := by omega
        rw [this]
    · rw [if_neg hsign]
      by_cases hneg : n < 0
      · rw [if_pos hneg]
        rw [decode_signbit (natToLEBytes n.natAbs) m hbne (by omega)
          hlst_pos (by omega)]
        rw [hval]
        have : -((n.natAbs : Int)) = n := by omega
        rw [this]
      · rw [if_neg hneg]
        rw [decode_plain (natToLEBytes n.natAbs) m hbne (by omega)
          hlst_pos (by omega)]
        rw [hval]
        have : ((n.natAbs : Int)) = n := by omega
        rw [this]

/-- C9 witness: the round trip at `n = -1000`, with the
minimal-encoding requirement on. -/
theorem c9_witness :
    script_num_decode (script_num_encode (-1000)) true 5 = .ok (-1000) :=
  c9_script_num_roundtrip (-1000) true (by decide) (by decide)

theorem find?_append_none {α : Type} (p : α → Bool) :
    ∀ (l l2 : List α), l.find? p = none → (l ++ l2).find? p = l2.find? p := by
  intro l
  induction l with
  | nil => intro l2 _; rfl
  | cons a t ih =>
    intro l2 h
    have hpa : ¬ p a = true := by
      intro hpa
      rw [List.find?_cons_of_pos t hpa] at h
      exact Option.noConfusion h
    rw [List.find?_cons_of_neg t hpa] at h
    rw [List.cons_append, List.find?_cons_of_neg _ hpa]
    exact ih l2 h

theorem find?_append_singleton_neg {α : Type} (p : α → Bool) (a : α)
    (ha : ¬ p a = true) :
    ∀ (l : List α), (l ++ [a]).find? p = l.find? p := by
  intro l
  induction l with
  | nil => simpa using List.find?_cons_of_neg [] ha
  | cons hd t ih =>
    by_cases hp : p hd = true
    · rw [List.cons_append, List.find?_cons_of_pos _ hp,
        List.find?_cons_of_pos _ hp]
    · rw [List.cons_append, List.find?_cons_of_neg _ hp,
        List.find?_cons_of_neg _ hp]
      exact ih

theorem find?_filter_of_imp {α : Type} (p q : α → Bool)
    (h : ∀ x, p x = true → q x = true) :
    ∀ (l : List α), (l.filter q).find? p = l.find? p := by
  intro l
  induction l with
  | nil => rfl
  | cons a t ih =>
    by_cases hq : q a = true
    · rw [List.filter_cons_of_pos hq]
      by_cases hp : p a = true
      · rw [List.find?_cons_of_pos _ hp, List.find?_cons_of_pos _ hp]
      · rw [List.find?_cons_of_neg _ hp, List.find?_cons_of_neg _ hp]
        exact ih
    · rw [List.filter_cons_of_neg hq]
      have hp : ¬ p a = true := fun hp => hq (h a hp)
      rw [List.find?_cons_of_neg _ hp]
      exact ih

theorem utxo_set_lookup_insert_self (s : List UtxoEntry) (e : UtxoEntry) :
    (utxo_set_lookup (utxo_set_insert s e).2 e.outpoint).isSome = true := by
  unfold utxo_set_insert
  split
  · rename_i hex
    exact hex
  · rename_i hex
    rw [utxo_set_lookup]
    rw [find?_append_none _ s [e]
      (Option.not_isSome_iff_eq_none.mp hex)]
    rw [List.find?_cons_of_pos [] (by simp)]
    rfl

theorem utxo_set_lookup_remove_self (s : List UtxoEntry) (o : Outpoint) :
    utxo_set_lookup (utxo_set_remove s o) o = none := by
  rw [utxo_set_lookup, utxo_set_remove, List.find?_eq_none]
  intro x hx
  have hq := (List.mem_filter.mp hx).2
  simpa using hq

theorem utxo_db_delete_lookup_other (db : UtxoDb) (o X : Outpoint)
    (h : o ≠ X) :
    utxo_db_lookup (utxo_db_delete db o).2 X = utxo_db_lookup db X := by
  unfold utxo_db_delete
  split
  · rfl
  · split
    · rw [utxo_db_lookup, utxo_db_lookup]
      dsimp only
      exact find?_filter_of_imp _ _
        (fun x hx => by
          have : x.outpoint = X := by simpa using hx
          simp [this, h.symm]) db.entries
    · rfl

theorem utxo_db_insert_lookup_other (db : UtxoDb) (en : UtxoEntry)
    (X : Outpoint) (h : en.outpoint ≠ X) :
    utxo_db_lookup (utxo_db_insert db en).2 X = utxo_db_lookup db X := by
  unfold utxo_db_insert
  split
  · rfl
  · split
    · rfl
    · rw [utxo_db_lookup, utxo_db_lookup]
      dsimp only
      exact find?_append_singleton_neg _ en (by simpa using h) db.entries

theorem flushDeleteSpent_lookup_other (X : Outpoint) :
    ∀ (l : List Outpoint) (db db' : UtxoDb), X ∉ l →
      flushDeleteSpent db l = .ok db' →
      utxo_db_lookup db' X = utxo_db_lookup db X := by
  intro l
  induction l with
  | nil => intro db db' _ h; cases h; rfl
  | cons o rest ih =>
    intro db db' hmem h
    unfold flushDeleteSpent at h
    split at h
    · exact Except.noConfusion h
    · have ho : o ≠ X := fun he => hmem (he ▸ List.mem_cons_self o rest)
      exact (ih _ _ (fun hm => hmem (List.mem_cons_of_mem o hm)) h).trans
        (utxo_db_delete_lookup_other db o X ho)

theorem flushInsertCreated_lookup_other (X : Outpoint) :
    ∀ (l : List UtxoEntry) (db db' : UtxoDb),
      (∀ en ∈ l, en.outpoint ≠ X) →
      flushInsertCreated db l = .ok db' →
      utxo_db_lookup db' X = utxo_db_lookup db X := by
  intro l
  induction l with
  | nil => intro db db' _ h; cases h; rfl
  | cons e rest ih =>
    intro db db' hmem h
    unfold flushInsertCreated at h
    split at h
    · exact Except.noConfusion h
    · exact (ih _ _ (fun en hm => hmem en (List.mem_cons_of_mem e hm)) h).trans
        (utxo_db_insert_lookup_other db e X
          (hmem e (List.mem_cons_self e rest)))

theorem flush_lookup_other (batch : IbdUtxoBatch) (db : UtxoDb)
    (X : Outpoint) (hs : X ∉ batch.spent_outpoints)
    (hc : ∀ en ∈ batch.created_utxos, en.outpoint ≠ X) :
    utxo_db_lookup (ibd_validator_flush batch db).2 X =
      utxo_db_lookup db X := by
  unfold ibd_validator_flush
  cases hd : flushDeleteSpent db batch.spent_outpoints with
  | error r => rfl
  | ok db1 =>
    dsimp only
    cases hi : flushInsertCreated db1 batch.created_utxos with
    | error r => rfl
    | ok db2 =>
      dsimp only
      exact (flushInsertCreated_lookup_other X _ _ _ hc hi).trans
        (flushDeleteSpent_lookup_other X _ _ _ hs hd)

theorem add_created_spent_outpoints (b : IbdUtxoBatch) (e : UtxoEntry) :
    ((ibd_utxo_batch_add_created b e).2).spent_outpoints =
      b.spent_outpoints := by
  unfold ibd_utxo_batch_add_created
  dsimp only
  split <;> rfl

theorem add_created_cancelled (b : IbdUtxoBatch) (e : UtxoEntry) :
    ((ibd_utxo_batch_add_created b e).2).created_then_spent_count =
      b.created_then_spent_count := by
  unfold ibd_utxo_batch_add_created
  dsimp only
  split <;> rfl

theorem add_created_created (b : IbdUtxoBatch) (e : UtxoEntry) :
    ((ibd_utxo_batch_add_created b e).2).created_utxos =
      (utxo_set_insert b.created_utxos e).2 := by
  unfold ibd_utxo_batch_add_created
  dsimp only
  split <;> rfl

/-- C1 amended: created-then-spent cancellation on any batch.  Calling
`add_created e` and then `add_spent e.outpoint` always leaves the
created set without `e.outpoint`, the spent list exactly as it was
(so empty when starting from the empty batch), and `cancelled_count`
incremented by 1.  Provided `e.outpoint` was not already on the spent
list, the batch then holds no delete or insert row for it, and a
subsequent flush leaves the store's entry at `e.outpoint` untouched —
flush writes no rows for it.  (On a batch whose spent list already held
the outpoint, flush does delete it: see the counterexample.) -/
theorem c1_amended (b : IbdUtxoBatch) (e : UtxoEntry) (db : UtxoDb) :
    ibd_utxo_batch_lookup (createdThenSpent b e) e.outpoint = none ∧
    (createdThenSpent b e).spent_outpoints = b.spent_outpoints ∧
    (createdThenSpent b e).created_then_spent_count =
      b.created_then_spent_count + 1 ∧
    (e.outpoint ∉ b.spent_outpoints →
      e.outpoint ∉ (createdThenSpent b e).spent_outpoints ∧
      (∀ en ∈ (createdThenSpent b e).created_utxos,
        en.outpoint ≠ e.outpoint) ∧
      utxo_db_lookup
          (ibd_validator_flush (createdThenSpent b e) db).2 e.outpoint =
        utxo_db_lookup db e.outpoint) := by
  have hlook1 : (utxo_set_lookup
      ((ibd_utxo_batch_add_created b e).2).created_utxos
      e.outpoint).isSome = true := by
    rw [add_created_created]
    exact utxo_set_lookup_insert_self b.created_utxos e
  obtain ⟨u, hu⟩ := Option.isSome_iff_exists.mp hlook1
  have key : createdThenSpent b e =
      { (ibd_utxo_batch_add_created b e).2 with
        total_inputs_processed :=
          ((ibd_utxo_batch_add_created b e).2).total_inputs_processed + 1
        created_utxos :=
          utxo_set_remove
            ((ibd_utxo_batch_add_created b e).2).created_utxos e.outpoint
        created_then_spent_count :=
          ((ibd_utxo_batch_add_created b e).2).created_then_spent_count
            + 1 } := by
    rw [createdThenSpent]
    unfold ibd_utxo_batch_add_spent
    dsimp only
    rw [hu]
  refine ⟨?_, ?_, ?_, ?_⟩
  · rw [ibd_utxo_batch_lookup, key]
    dsimp only
    exact utxo_set_lookup_remove_self _ e.outpoint
  · rw [key]
    dsimp only
    exact add_created_spent_outpoints b e
  · rw [key]
    dsimp only
    rw [add_created_cancelled]
  · intro hfresh
    have hspent : (createdThenSpent b e).spent_outpoints =
        b.spent_outpoints := by
      rw [key]
      dsimp only
      exact add_created_spent_outpoints b e
    have hnospent : e.outpoint ∉ (createdThenSpent b e).spent_outpoints := by
      rw [hspent]
      exact hfresh
    have hnocreated : ∀ en ∈ (createdThenSpent b e).created_utxos,
        en.outpoint ≠ e.outpoint := by
      intro en hen
      rw [key] at hen
      dsimp only at hen
      have hq := (List.mem_filter.mp hen).2
      simpa using hq
    exact ⟨hnospent, hnocreated,
      flush_lookup_other _ db e.outpoint hnospent hnocreated⟩

/-- C1 witness: the amended claim at scenario S2 — the empty batch over
[100, 199], the 50 000-satoshi entry for `X` at height 100, and a store
holding one unrelated row: `X` is gone from the created set, the spent
list is as empty as it started, the cancelled counter is 1, and the
flush leaves the store's view of `X` unchanged. -/
theorem c1_witness :
    ibd_utxo_batch_lookup
        (createdThenSpent (ibd_utxo_batch_create 100 199) xEntry)
        xEntry.outpoint = none ∧
    (createdThenSpent (ibd_utxo_batch_create 100 199)
        xEntry).spent_outpoints =
      (ibd_utxo_batch_create 100 199).spent_outpoints ∧
    (createdThenSpent (ibd_utxo_batch_create 100 199)
        xEntry).created_then_spent_count =
      (ibd_utxo_batch_create 100 199).created_then_spent_count + 1 ∧
    (xEntry.outpoint ∉
        (createdThenSpent (ibd_utxo_batch_create 100 199)
          xEntry).spent_outpoints ∧
      (∀ en ∈ (createdThenSpent (ibd_utxo_batch_create 100 199)
          xEntry).created_utxos, en.outpoint ≠ xEntry.outpoint) ∧
      utxo_db_lookup
          (ibd_validator_flush
            (createdThenSpent (ibd_utxo_batch_create 100 199) xEntry)
            c1Db).2 xEntry.outpoint =
        utxo_db_lookup c1Db xEntry.outpoint) :=
  ⟨(c1_amended (ibd_utxo_batch_create 100 199) xEntry c1Db).1,
   (c1_amended (ibd_utxo_batch_create 100 199) xEntry c1Db).2.1,
   (c1_amended (ibd_utxo_batch_create 100 199) xEntry c1Db).2.2.1,
   (c1_amended (ibd_utxo_batch_create 100 199) xEntry c1Db).2.2.2
     (by decide)⟩

end BitcoinEcho
